import Mathlib

/-!
Verification of the khadyota approximate-nearest-neighbor engine.

Shallow embedding conventions, used throughout this file:

* Rust f32 values are modelled as exact rationals.  The f32 square root has
  no exact rational counterpart, so every function whose Rust source calls
  sqrt takes the square-root function as an explicit parameter
  (sqrtf : Q → Q); theorems state only hypotheses about sqrtf that the
  IEEE-754 square root satisfies at the points where it is applied
  (for example sqrtf 0 = 0).
* Rust Vec of f32 is List Q; usize and u32 are Nat.
* Rust slice indexing that can panic is modelled by List.getD with a
  default; the theorems carry the in-range hypotheses that the source
  guarantees, so the default is never reached there.
* Rust sort_by is a stable sort by the given comparator; it is modelled by
  an insertion sort, which is stable in the same sense.
* Iterator::min_by returns the first of equally-minimum elements; it is
  modelled by argminFirst below.
* serde_json metadata values are opaque to the core and are modelled by
  Nat; HashMap of metadata is modelled by an association list whose insert
  prepends and whose get is List.lookup.
* Calls to the process-wide RNG (rand::thread_rng choices and
  rand::random) are modelled by explicit function parameters supplying the
  drawn values, universally quantified in the theorems.
-/

/-- Decidable equality for Except, used to evaluate the model on concrete
inputs. -/
instance {ε α : Type} [DecidableEq ε] [DecidableEq α] : DecidableEq (Except ε α) :=
  fun x y =>
    match x, y with
    | Except.ok a, Except.ok b =>
      if h : a = b then isTrue (by rw [h]) else isFalse (by intro hh; cases hh; exact h rfl)
    | Except.error a, Except.error b =>
      if h : a = b then isTrue (by rw [h]) else isFalse (by intro hh; cases hh; exact h rfl)
    | Except.ok _, Except.error _ => isFalse (by intro hh; cases hh)
    | Except.error _, Except.ok _ => isFalse (by intro hh; cases hh)

/-! ### Generic list helpers -/

/-- Index of the first minimal element of a list of rationals
(Rust Iterator.min_by returns the first of equally-minimum elements). -/
def argminFirst : List ℚ → ℕ
  | [] => 0
  | [_] => 0
  | x :: y :: ys =>
    if x ≤ ((y :: ys).getD (argminFirst (y :: ys)) 0) then 0
    else argminFirst (y :: ys) + 1

/-- Stable insertion of a pair into a list sorted by the second component. -/
def insertByDist (x : ℕ × ℚ) : List (ℕ × ℚ) → List (ℕ × ℚ)
  | [] => [x]
  | y :: ys => if x.2 ≤ y.2 then x :: y :: ys else y :: insertByDist x ys

/-- Stable sort of (id, distance) pairs by distance ascending; models the
Rust stable sort_by with the partial_cmp comparator on the distance. -/
def sortByDist : List (ℕ × ℚ) → List (ℕ × ℚ)
  | [] => []
  | x :: xs => insertByDist x (sortByDist xs)

/-- Append an element to the i-th inner list, leaving the rest unchanged
(models pushing onto inverted_lists at index i; out-of-range pushes,
which panic in the source, leave the lists unchanged and are excluded by
the theorems' hypotheses). -/
def pushAt : List (List ℕ) → ℕ → ℕ → List (List ℕ)
  | [], _, _ => []
  | l :: ls, 0, x => (l ++ [x]) :: ls
  | l :: ls, i + 1, x => l :: pushAt ls i x

/-- Apply a function to the element at index i (models in-place update of
a Vec element). -/
def updateAt {α : Type} : List α → ℕ → (α → α) → List α
  | [], _, _ => []
  | a :: as, 0, f => f a :: as
  | a :: as, i + 1, f => a :: updateAt as i f

/-! ### Distance kernels (src/distance/scalar.rs, src/distance/metrics.rs)

The SIMD variants in src/distance/simd.rs must agree with the scalar ones
within tolerance (spec P2) and the scalar path is the declared reference,
so the scalar implementations are the ones embedded here. -/

/-- Sum of squared componentwise differences, the loop shared by the
Euclidean kernels. -/
def sumSqDiff (a b : List ℚ) : ℚ := ((a.zip b).map fun p => (p.1 - p.2) ^ 2).sum

/-- Distance metric enum from src/config.rs. -/
inductive DistanceMetric where
  | Cosine
  | Euclidean
  | DotProduct
  deriving DecidableEq, Repr

/-- dot_product_scalar from src/distance/scalar.rs. -/
def dot_product_scalar (a b : List ℚ) : ℚ := ((a.zip b).map fun p => p.1 * p.2).sum

/-- The accumulated dot of a vector with itself (the norm accumulators of
cosine_similarity_scalar compute this same sum). -/
def normAcc (a : List ℚ) : ℚ := ((a.zip a).map fun p => p.1 * p.2).sum

/-- cosine_similarity_scalar from src/distance/scalar.rs:
dot / (norm_a.sqrt() * norm_b.sqrt()). -/
def cosine_similarity_scalar (sqrtf : ℚ → ℚ) (a b : List ℚ) : ℚ :=
  dot_product_scalar a b / (sqrtf (normAcc a) * sqrtf (normAcc b))

/-- cosine_distance_scalar from src/distance/scalar.rs: 1 - similarity. -/
def cosine_distance_scalar (sqrtf : ℚ → ℚ) (a b : List ℚ) : ℚ :=
  1 - cosine_similarity_scalar sqrtf a b

/-- euclidean_distance_scalar from src/distance/scalar.rs. -/
def euclidean_distance_scalar (sqrtf : ℚ → ℚ) (a b : List ℚ) : ℚ :=
  sqrtf (sumSqDiff a b)

/-- euclidean_distance_squared_scalar from src/distance/scalar.rs. -/
def euclidean_distance_squared_scalar (a b : List ℚ) : ℚ := sumSqDiff a b

/-- compute_distance from src/distance/metrics.rs (the scalar reference
path of the per-metric dispatch). -/
def compute_distance (sqrtf : ℚ → ℚ) (a b : List ℚ) : DistanceMetric → ℚ
  | DistanceMetric.Cosine => cosine_distance_scalar sqrtf a b
  | DistanceMetric.Euclidean => euclidean_distance_scalar sqrtf a b
  | DistanceMetric.DotProduct => dot_product_scalar a b

/-! ### Lemmas about the generic helpers -/

theorem argminFirst_lt_length : ∀ (l : List ℚ), l ≠ [] → argminFirst l < l.length
  | [], h => absurd rfl h
  | [_], _ => by simp [argminFirst]
  | x :: y :: ys, _ => by
    unfold argminFirst
    by_cases hx : x ≤ ((y :: ys).getD (argminFirst (y :: ys)) 0)
    · rw [if_pos hx]; simp
    · rw [if_neg hx]
      have := argminFirst_lt_length (y :: ys) (by simp)
      simp only [List.length_cons] at this ⊢
      omega

theorem argminFirst_le : ∀ (l : List ℚ) (j : ℕ), j < l.length →
    l.getD (argminFirst l) 0 ≤ l.getD j 0
  | [], _, h => by simp at h
  | [_], j, hj => by
    have : j = 0 := by simpa using Nat.lt_one_iff.mp (by simpa using hj)
    subst this; simp [argminFirst]
  | x :: y :: ys, j, hj => by
    unfold argminFirst
    by_cases hx : x ≤ ((y :: ys).getD (argminFirst (y :: ys)) 0)
    · rw [if_pos hx]
      rcases j with _ | j
      · simp
      · have hj2 : j < (y :: ys).length := by simpa using hj
        calc (x :: y :: ys).getD 0 0 = x := rfl
          _ ≤ (y :: ys).getD (argminFirst (y :: ys)) 0 := hx
          _ ≤ (y :: ys).getD j 0 := argminFirst_le (y :: ys) j hj2
          _ = (x :: y :: ys).getD (j + 1) 0 := rfl
    · rw [if_neg hx]
      rcases j with _ | j
      · have : (y :: ys).getD (argminFirst (y :: ys)) 0 ≤ x := le_of_not_le hx
        simpa using this
      · have hj2 : j < (y :: ys).length := by simpa using hj
        simpa using argminFirst_le (y :: ys) j hj2

theorem argminFirst_strict : ∀ (l : List ℚ) (j : ℕ), j < argminFirst l →
    l.getD (argminFirst l) 0 < l.getD j 0
  | [], j, h => by simp [argminFirst] at h
  | [_], j, h => by simp [argminFirst] at h
  | x :: y :: ys, j, hj => by
    unfold argminFirst at hj ⊢
    by_cases hx : x ≤ ((y :: ys).getD (argminFirst (y :: ys)) 0)
    · rw [if_pos hx] at hj; simp at hj
    · rw [if_neg hx] at hj ⊢
      rcases j with _ | j
      · have : (y :: ys).getD (argminFirst (y :: ys)) 0 < x := lt_of_not_le hx
        simpa using this
      · have hj2 : j < argminFirst (y :: ys) := by omega
        simpa using argminFirst_strict (y :: ys) j hj2

/-- Characterization: the value at the argmin together with strictness
before it pins down argminFirst. -/
theorem argminFirst_eq_of (l : List ℚ) (k : ℕ) (hk : k < l.length)
    (hmin : ∀ j, j < l.length → l.getD k 0 ≤ l.getD j 0)
    (hfirst : ∀ j, j < k → l.getD k 0 < l.getD j 0) :
    argminFirst l = k := by
  have hne : l ≠ [] := by
    intro h; subst h; simp at hk
  have h1 : argminFirst l < l.length := argminFirst_lt_length l hne
  rcases lt_trichotomy (argminFirst l) k with h | h | h
  · exfalso
    have hlt := hfirst (argminFirst l) h
    have hle := argminFirst_le l k hk
    exact absurd hle (not_le_of_lt hlt)
  · exact h
  · exfalso
    have hlt := argminFirst_strict l k h
    have hle := hmin (argminFirst l) h1
    exact absurd hle (not_le_of_lt hlt)

theorem length_insertByDist (x : ℕ × ℚ) :
    ∀ (l : List (ℕ × ℚ)), (insertByDist x l).length = l.length + 1
  | [] => rfl
  | y :: ys => by
    unfold insertByDist
    by_cases h : x.2 ≤ y.2
    · rw [if_pos h]; simp
    · rw [if_neg h]; simp [length_insertByDist x ys]

theorem length_sortByDist : ∀ (l : List (ℕ × ℚ)), (sortByDist l).length = l.length
  | [] => rfl
  | x :: xs => by
    unfold sortByDist
    rw [length_insertByDist, length_sortByDist xs, List.length_cons]

theorem sorted_insertByDist (x : ℕ × ℚ) :
    ∀ (l : List (ℕ × ℚ)), l.Pairwise (fun a b => a.2 ≤ b.2) →
      (insertByDist x l).Pairwise (fun a b => a.2 ≤ b.2)
  | [], _ => by simp [insertByDist]
  | y :: ys, h => by
    unfold insertByDist
    rcases List.pairwise_cons.1 h with ⟨hy, hys⟩
    by_cases hx : x.2 ≤ y.2
    · simp only [hx, if_true]
      refine List.pairwise_cons.2 ⟨?_, h⟩
      intro z hz
      rcases List.mem_cons.1 hz with hz | hz
      · subst hz; exact hx
      · exact le_trans hx (hy z hz)
    · simp only [hx, if_false]
      refine List.pairwise_cons.2 ⟨?_, sorted_insertByDist x ys hys⟩
      intro z hz
      have hmem : z = x ∨ z ∈ ys := by
        have : z ∈ insertByDist x ys := hz
        have hperm : ∀ (m : List (ℕ × ℚ)) (w : ℕ × ℚ), w ∈ insertByDist x m → w = x ∨ w ∈ m := by
          intro m
          induction m with
          | nil => intro w hw; simp [insertByDist] at hw; exact Or.inl hw
          | cons a as ih =>
            intro w hw
            unfold insertByDist at hw
            by_cases ha : x.2 ≤ a.2
            · simp only [ha, if_true] at hw
              rcases List.mem_cons.1 hw with hw | hw
              · exact Or.inl hw
              · exact Or.inr hw
            · simp only [ha, if_false] at hw
              rcases List.mem_cons.1 hw with hw | hw
              · exact Or.inr (by simp [hw])
              · rcases ih w hw with hw | hw
                · exact Or.inl hw
                · exact Or.inr (List.mem_cons_of_mem a hw)
        exact hperm ys z this
      rcases hmem with hz | hz
      · subst hz; exact le_of_not_le hx
      · exact hy z hz

theorem sorted_sortByDist : ∀ (l : List (ℕ × ℚ)),
    (sortByDist l).Pairwise (fun a b => a.2 ≤ b.2)
  | [] => List.Pairwise.nil
  | x :: xs => sorted_insertByDist x (sortByDist xs) (sorted_sortByDist xs)

/-! ### Codebook (src/quantization/codebook.rs) -/

/-- euclidean_distance_squared, the private helper of
src/quantization/codebook.rs. -/
def cbDistSq (a b : List ℚ) : ℚ := ((a.zip b).map fun p => (p.1 - p.2) ^ 2).sum

/-- A codebook: a set of learned centroids (src/quantization/codebook.rs).
The centroids come out of k-means training; this file treats them as data
and the theorems carry the invariants training establishes. -/
structure Codebook where
  centroids : List (List ℚ)
  dimensions : ℕ
  deriving DecidableEq, Repr

/-- Codebook.encode: index of the first centroid minimizing squared L2,
cast to u8 (hence the mod 256, the image of the `as u8` cast). -/
def Codebook.encode (cb : Codebook) (vector : List ℚ) : ℕ :=
  (argminFirst (cb.centroids.map fun c => cbDistSq vector c)) % 256

/-- Codebook.decode: the stored centroid at the code. -/
def Codebook.decode (cb : Codebook) (code : ℕ) : List ℚ :=
  cb.centroids.getD code []

/-- Codebook.distance_to_centroid: squared L2 from a query subvector to the
centroid named by the code. -/
def Codebook.distance_to_centroid (cb : Codebook) (query : List ℚ) (code : ℕ) : ℚ :=
  cbDistSq query (cb.centroids.getD code [])

/-! ### PQ codec (src/quantization/product_quantization.rs) -/

/-- extract_subvector from src/quantization/product_quantization.rs:
the slice from start to start + subvec_size starting at stride times the
subvector index. -/
def extract_subvector (vector : List ℚ) (subvec_idx subvec_size : ℕ) : List ℚ :=
  (vector.drop (subvec_idx * subvec_size)).take subvec_size

/-- The PQ codec: per-subspace codebooks plus the subspace geometry. -/
structure PQCodec where
  num_subvectors : ℕ
  subvector_size : ℕ
  codebooks : List Codebook
  deriving DecidableEq, Repr

/-- PQCodec.encode: one code byte per codebook, the nearest centroid of the
corresponding subvector slice. -/
def PQCodec.encode (c : PQCodec) (vector : List ℚ) : List ℕ :=
  c.codebooks.mapIdx fun subvec_idx cb =>
    cb.encode (extract_subvector vector subvec_idx c.subvector_size)

/-- PQCodec.decode: concatenation of the centroids named by the code. -/
def PQCodec.decode (c : PQCodec) (codes : List ℕ) : List ℚ :=
  ((codes.zip c.codebooks).map fun p => p.2.decode p.1).flatten

/-- The squared-distance accumulator of PQCodec.asymmetric_distance (the
value of the distance_squared variable before the final sqrt). -/
def asymDistSq (c : PQCodec) (query : List ℚ) (codes : List ℕ) : ℚ :=
  (((codes.zip c.codebooks).mapIdx fun subvec_idx p =>
    p.2.distance_to_centroid
      (extract_subvector query subvec_idx c.subvector_size) p.1)).sum

/-- PQCodec.asymmetric_distance: sqrt of the summed per-subspace squared
distances. -/
def PQCodec.asymmetric_distance (sqrtf : ℚ → ℚ) (c : PQCodec) (query : List ℚ)
    (codes : List ℕ) : ℚ :=
  sqrtf (asymDistSq c query codes)

/-- PQCodec.precompute_distance_table: the M by 256 lookup table of squared
distances from the query subvectors to every centroid. -/
def PQCodec.precompute_distance_table (c : PQCodec) (query : List ℚ) : List (List ℚ) :=
  c.codebooks.mapIdx fun subvec_idx cb =>
    (List.range 256).map fun code =>
      cb.distance_to_centroid (extract_subvector query subvec_idx c.subvector_size) code

/-- The summed table entries of PQCodec.table_lookup_distance (the value
before the final sqrt). -/
def lutSum (dist_table : List (List ℚ)) (codes : List ℕ) : ℚ :=
  (codes.mapIdx fun i code => (dist_table.getD i []).getD code 0).sum

/-- PQCodec.table_lookup_distance: sqrt of the summed table entries. -/
def PQCodec.table_lookup_distance (sqrtf : ℚ → ℚ) (_c : PQCodec)
    (dist_table : List (List ℚ)) (codes : List ℕ) : ℚ :=
  sqrtf (lutSum dist_table codes)

/-! ### Quantized storage (src/storage/quantized.rs) -/

/-- QuantizedVectors: the PQ codes for each inserted vector plus the codec. -/
structure QuantizedVectors where
  codes : List (List ℕ)
  original_vectors : Option (List (List ℚ))
  codec : PQCodec
  deriving DecidableEq, Repr

/-- QuantizedVectors.new. -/
def QuantizedVectors.new (codec : PQCodec) : QuantizedVectors :=
  ⟨[], none, codec⟩

/-- QuantizedVectors.add: encode and append, returning the assigned id. -/
def QuantizedVectors.add (qv : QuantizedVectors) (vector : List ℚ) :
    ℕ × QuantizedVectors :=
  (qv.codes.length, { qv with codes := qv.codes ++ [qv.codec.encode vector] })

/-- QuantizedVectors.get_codes. -/
def QuantizedVectors.get_codes (qv : QuantizedVectors) (id : ℕ) : List ℕ :=
  qv.codes.getD id []

/-- QuantizedVectors.precompute_distance_table (delegates to the codec). -/
def QuantizedVectors.precompute_distance_table (qv : QuantizedVectors)
    (query : List ℚ) : List (List ℚ) :=
  qv.codec.precompute_distance_table query

/-- QuantizedVectors.table_lookup_distance (delegates to the codec). -/
def QuantizedVectors.table_lookup_distance (sqrtf : ℚ → ℚ) (qv : QuantizedVectors)
    (dist_table : List (List ℚ)) (id : ℕ) : ℚ :=
  qv.codec.table_lookup_distance sqrtf dist_table (qv.get_codes id)

/-! ### Errors and configuration (src/error.rs, src/config.rs) -/

/-- The error taxonomy of src/error.rs; the payloads of the io and bincode
variants are external causes and are not modelled. -/
inductive KhadyotaError where
  | DimensionMismatch (expected got : ℕ)
  | VectorNotFound (id : ℕ)
  | InvalidConfig (msg : String)
  | SerializationError (msg : String)
  | IoError
  | BincodeError
  | IndexNotBuilt
  deriving DecidableEq, Repr

/-- Database configuration from src/config.rs. -/
structure Config where
  dimensions : ℕ
  metric : DistanceMetric
  use_pq : Bool
  pq_subvectors : ℕ
  num_clusters : ℕ
  num_probe : ℕ
  deriving DecidableEq, Repr

/-- Config.validate from src/config.rs: rejects zero dimensions and, when
PQ is enabled, a subvector count that does not divide the dimensions.
No other field is examined. -/
def Config.validate (cfg : Config) : Except KhadyotaError Unit :=
  if cfg.dimensions = 0 then
    Except.error (KhadyotaError.InvalidConfig "Dimensions must be > 0")
  else if cfg.use_pq ∧ cfg.dimensions % cfg.pq_subvectors ≠ 0 then
    Except.error (KhadyotaError.InvalidConfig "Dimensions must be divisible by pq_subvectors")
  else
    Except.ok ()

/-- Config.subvector_size. -/
def Config.subvector_size (cfg : Config) : ℕ := cfg.dimensions / cfg.pq_subvectors

/-! ### K-means trainer (src/quantization/kmeans.rs)

The trainer draws from the process-wide RNG in three places: the first
k-means++ centroid (one choose call), the k-means++ threshold for each
later slot (one rand::random call per slot), and the reinitialization of
each empty cluster (one choose call per empty cluster per iteration).
They are modelled by the parameters pickInit, rvals and pickEmpty; the
theorems quantify over them, with rand::random's codomain [0, 1)
hypothesized where the proof uses it. -/

/-- The private euclidean_distance of src/quantization/kmeans.rs
(sqrt of the summed squared differences). -/
def kmEuclid (sqrtf : ℚ → ℚ) (a b : List ℚ) : ℚ := sqrtf (sumSqDiff a b)

/-- find_nearest_centroid: index of, and distance to, the nearest centroid
(first of equally-near ones, as Iterator.min_by returns). -/
def find_nearest_centroid (sqrtf : ℚ → ℚ) (vector : List ℚ)
    (centroids : List (List ℚ)) : ℕ × ℚ :=
  let ds := centroids.map fun c => kmEuclid sqrtf vector c
  (argminFirst ds, ds.getD (argminFirst ds) 0)

/-- The weighted-selection scan of kmeans_plus_plus_init: subtract each
squared distance from the threshold in turn and return the index at which
the running threshold first drops to zero or below (none when the loop
finishes without triggering, in which case the source pushes nothing). -/
def kppScan (threshold : ℚ) (i : ℕ) : List ℚ → Option ℕ
  | [] => none
  | d :: rest =>
    if threshold - d ≤ 0 then some i else kppScan (threshold - d) (i + 1) rest

/-- One slot of the kmeans_plus_plus_init loop: compute the squared
nearest-centroid distances, draw the threshold, scan, and push the
selected training vector if the scan triggered. -/
def kppStep (sqrtf : ℚ → ℚ) (vectors : List (List ℚ)) (r : ℚ)
    (centroids : List (List ℚ)) : List (List ℚ) :=
  let distances := vectors.map fun v =>
    (find_nearest_centroid sqrtf v centroids).2 * (find_nearest_centroid sqrtf v centroids).2
  let total := distances.sum
  match kppScan (r * total) 0 distances with
  | some i => centroids ++ [vectors.getD i []]
  | none => centroids

/-- The slots 1..k of kmeans_plus_plus_init, slot t drawing rvals t. -/
def kppLoop (sqrtf : ℚ → ℚ) (vectors : List (List ℚ)) (rvals : ℕ → ℚ) :
    ℕ → ℕ → List (List ℚ) → List (List ℚ)
  | _, 0, centroids => centroids
  | t, rem + 1, centroids =>
    kppLoop sqrtf vectors rvals (t + 1) rem (kppStep sqrtf vectors (rvals t) centroids)

/-- kmeans_plus_plus_init: first centroid chosen at random, the rest by
the weighted scan. -/
def kmeans_plus_plus_init (sqrtf : ℚ → ℚ) (pickInit : ℕ) (rvals : ℕ → ℚ)
    (vectors : List (List ℚ)) (k : ℕ) : List (List ℚ) :=
  kppLoop sqrtf vectors rvals 1 (k - 1)
    [vectors.getD (pickInit % vectors.length) []]

/-- The assignment step of one Lloyd iteration: nearest-centroid index and
distance for every vector. -/
def kmAssign (sqrtf : ℚ → ℚ) (vectors centroids : List (List ℚ)) :
    List (ℕ × ℚ) :=
  vectors.map fun v => find_nearest_centroid sqrtf v centroids

/-- The accumulation pass of the update step: per-cluster coordinate sums
and per-cluster counts, starting from zero vectors. -/
def kmAccumulate (vectors : List (List ℚ)) (assignments : List ℕ) (k d : ℕ) :
    List (List ℚ) × List ℕ :=
  (vectors.zip assignments).foldl
    (fun st p =>
      (updateAt st.1 p.2 (fun c => c.zipWith (· + ·) p.1),
       updateAt st.2 p.2 (· + 1)))
    (List.replicate k (List.replicate d (0 : ℚ)), List.replicate k 0)

/-- The averaging pass of the update step: divide each accumulated sum by
its count when the count is positive. -/
def kmAverage (sums : List (List ℚ)) (counts : List ℕ) : List (List ℚ) :=
  sums.zipWith
    (fun c cnt => if 0 < cnt then c.map (fun x => x / (cnt : ℚ)) else c) counts

/-- The empty-cluster pass of the update step: replace the centroid of any
cluster with a zero count by a training vector drawn by pickEmpty. -/
def kmReinit (vectors : List (List ℚ)) (pickEmpty : ℕ → ℕ)
    (averaged : List (List ℚ)) (counts : List ℕ) : List (List ℚ) :=
  (averaged.zip counts).mapIdx fun i p =>
    if p.2 = 0 then vectors.getD (pickEmpty i % vectors.length) [] else p.1

/-- The update step of one Lloyd iteration: accumulate per-cluster sums and
counts, divide by the counts, and reinitialize empty clusters from the
training vectors chosen by pickEmpty. -/
def kmUpdate (vectors : List (List ℚ)) (assignments : List ℕ) (k d : ℕ)
    (pickEmpty : ℕ → ℕ) : List (List ℚ) :=
  kmReinit vectors pickEmpty
    (kmAverage (kmAccumulate vectors assignments k d).1
      (kmAccumulate vectors assignments k d).2)
    (kmAccumulate vectors assignments k d).2

/-- The convergence test: |previous inertia - inertia| < tolerance, where
the previous inertia starts at f32 INFINITY (modelled as none, for which
the test is false). -/
def kmConverged (prev : Option ℚ) (inertia tol : ℚ) : Bool :=
  match prev with
  | none => false
  | some p => |p - inertia| < tol

/-- The Lloyd iteration loop of kmeans: assign, test convergence (breaking
with the fresh assignments), update, recurse. The iteration counter iter
feeds the empty-cluster RNG draws. -/
def kmLoop (sqrtf : ℚ → ℚ) (vectors : List (List ℚ)) (k d : ℕ) (tol : ℚ)
    (pickEmpty : ℕ → ℕ → ℕ) :
    ℕ → ℕ → List (List ℚ) → List ℕ → Option ℚ → List (List ℚ) × List ℕ
  | _, 0, centroids, assignments, _ => (centroids, assignments)
  | iter, rem + 1, centroids, _, prev =>
    if kmConverged prev
        (((kmAssign sqrtf vectors centroids).map fun p => p.2 * p.2).sum) tol then
      (centroids, (kmAssign sqrtf vectors centroids).map Prod.fst)
    else
      kmLoop sqrtf vectors k d tol pickEmpty (iter + 1) rem
        (kmUpdate vectors ((kmAssign sqrtf vectors centroids).map Prod.fst) k d
          (pickEmpty iter))
        ((kmAssign sqrtf vectors centroids).map Prod.fst)
        (some (((kmAssign sqrtf vectors centroids).map fun p => p.2 * p.2).sum))
  termination_by _ rem => rem

/-- compute_inertia: sum over the vectors of the square of the computed
Euclidean distance to the assigned centroid. -/
def compute_inertia (sqrtf : ℚ → ℚ) (vectors centroids : List (List ℚ))
    (assignments : List ℕ) : ℚ :=
  ((vectors.zip assignments).map fun p =>
    kmEuclid sqrtf p.1 (centroids.getD p.2 []) *
    kmEuclid sqrtf p.1 (centroids.getD p.2 [])).sum

/-- K-means clustering result. -/
structure KMeansResult where
  centroids : List (List ℚ)
  assignments : List ℕ
  inertia : ℚ
  deriving DecidableEq, Repr

/-- kmeans from src/quantization/kmeans.rs: k-means++ initialization, up
to max_iterations Lloyd iterations with the convergence break, and a final
inertia recomputation. -/
def kmeans (sqrtf : ℚ → ℚ) (pickInit : ℕ) (rvals : ℕ → ℚ)
    (pickEmpty : ℕ → ℕ → ℕ) (vectors : List (List ℚ))
    (k max_iterations : ℕ) (tol : ℚ) : KMeansResult :=
  let d := (vectors.getD 0 []).length
  let init := kmeans_plus_plus_init sqrtf pickInit rvals vectors k
  let res := kmLoop sqrtf vectors k d tol pickEmpty 0 max_iterations init
    (List.replicate vectors.length 0) none
  ⟨res.1, res.2, compute_inertia sqrtf vectors res.1 res.2⟩

/-! ### IVF index (src/indexing/ivf.rs) -/

/-- Inverted File Index: cluster centroids, one posting list per cluster,
the probe width and the dimensionality. -/
structure IVFIndex where
  centroids : List (List ℚ)
  inverted_lists : List (List ℕ)
  num_probe : ℕ
  dimensions : ℕ
  deriving DecidableEq, Repr

/-- IVFIndex.new: empty centroids and num_clusters empty posting lists. -/
def IVFIndex.new (dimensions num_clusters num_probe : ℕ) : IVFIndex :=
  ⟨[], List.replicate num_clusters [], num_probe, dimensions⟩

/-- IVFIndex.find_nearest_cluster: index of the first nearest centroid
under the metrics-layer Euclidean distance. -/
def IVFIndex.find_nearest_cluster (sqrtf : ℚ → ℚ) (ivf : IVFIndex)
    (vector : List ℚ) : ℕ :=
  argminFirst (ivf.centroids.map fun c => euclidean_distance_scalar sqrtf vector c)

/-- The posting-list population loop of IVFIndex.build: push each vector id
onto the list of its nearest cluster, in id order. -/
def ivfAssignLists (assign : ℕ → ℕ) (n num_clusters : ℕ) : List (List ℕ) :=
  (List.range n).foldl (fun ls vec_id => pushAt ls (assign vec_id) vec_id)
    (List.replicate num_clusters [])

/-- IVFIndex.build: k-means on the full vectors for the centroids, then a
fresh set of posting lists populated by nearest-centroid assignment.
The source hardcodes 100 iterations and tolerance 0.001 for the k-means
call; num_probe and dimensions are untouched. -/
def IVFIndex.build (sqrtf : ℚ → ℚ) (pickInit : ℕ) (rvals : ℕ → ℚ)
    (pickEmpty : ℕ → ℕ → ℕ) (ivf : IVFIndex) (vectors : List (List ℚ))
    (num_clusters : ℕ) : IVFIndex :=
  let result := kmeans sqrtf pickInit rvals pickEmpty vectors num_clusters 100 (1 / 1000)
  let built : IVFIndex :=
    { ivf with centroids := result.centroids }
  { built with
    inverted_lists :=
      ivfAssignLists (fun vec_id =>
        built.find_nearest_cluster sqrtf (vectors.getD vec_id []))
        vectors.length num_clusters }

/-- IVFIndex.probe: distances from the query to every centroid, sorted
ascending (stable), the first num_probe cluster ids. -/
def IVFIndex.probe (sqrtf : ℚ → ℚ) (ivf : IVFIndex) (query : List ℚ) : List ℕ :=
  let distances := ivf.centroids.enum.map fun p =>
    (p.1, euclidean_distance_scalar sqrtf query p.2)
  ((sortByDist distances).take ivf.num_probe).map Prod.fst

/-- IVFIndex.get_candidates: concatenation of the probed posting lists in
probe order, without deduplication. -/
def IVFIndex.get_candidates (ivf : IVFIndex) (cluster_ids : List ℕ) : List ℕ :=
  cluster_ids.foldl (fun acc cluster_id => acc ++ ivf.inverted_lists.getD cluster_id []) []

/-- IVFIndex.set_num_probe: the stored probe width is the minimum of the
requested value and the number of centroids; there is no lower clamp. -/
def IVFIndex.set_num_probe (ivf : IVFIndex) (num_probe : ℕ) : IVFIndex :=
  { ivf with num_probe := min num_probe ivf.centroids.length }

/-! ### Vector database facade (src/vector_db.rs)

Metadata values are opaque to the core (serde_json blobs) and are
modelled by Nat; the HashMap is an association list (insert prepends,
get is the first match — ids are unique so this agrees with HashMap). -/

/-- A search result: id, distance and the optional metadata blob. -/
structure SearchResult where
  id : ℕ
  distance : ℚ
  metadata : Option ℕ
  deriving DecidableEq, Repr

/-- The database state from src/vector_db.rs. -/
structure VectorDB where
  config : Config
  vectors : List (List ℚ)
  quantized : Option QuantizedVectors
  ivf_index : Option IVFIndex
  metadata : List (ℕ × ℕ)
  next_id : ℕ
  index_built : Bool
  deriving DecidableEq, Repr

/-- VectorDB.new: validate the configuration, then the empty state. -/
def VectorDB.new (config : Config) : Except KhadyotaError VectorDB :=
  match config.validate with
  | Except.error e => Except.error e
  | Except.ok _ =>
    Except.ok ⟨config, [], none, none, [], 0, false⟩

/-- VectorDB.insert: reject a wrong-length vector before any mutation;
otherwise push the vector, store the metadata under the fresh id, advance
next_id and clear the index_built flag. The state is returned alongside
the result (modelling the mutable borrow). -/
def VectorDB.insert (db : VectorDB) (vector : List ℚ) (metadata : Option ℕ) :
    Except KhadyotaError ℕ × VectorDB :=
  if vector.length ≠ db.config.dimensions then
    (Except.error (KhadyotaError.DimensionMismatch db.config.dimensions vector.length), db)
  else
    let id := db.next_id
    let db2 := { db with
      vectors := db.vectors ++ [vector],
      metadata := match metadata with
        | some m => (id, m) :: db.metadata
        | none => db.metadata,
      next_id := db.next_id + 1,
      index_built := false }
    (Except.ok id, db2)

/-- VectorDB.search_with_index: probe the IVF, gather candidates, score
them through the precomputed LUT, stable-sort by distance, truncate to k
and attach metadata. -/
def VectorDB.search_with_index (sqrtf : ℚ → ℚ) (db : VectorDB) (query : List ℚ)
    (k : ℕ) (ivf : IVFIndex) (quantized : QuantizedVectors) :
    Except KhadyotaError (List SearchResult) :=
  let clusters := ivf.probe sqrtf query
  let candidates := ivf.get_candidates clusters
  let scored := candidates.map fun vec_id =>
    (vec_id, quantized.table_lookup_distance sqrtf
      (quantized.precompute_distance_table query) vec_id)
  Except.ok (((sortByDist scored).take k).map fun p =>
    ⟨p.1, p.2, db.metadata.lookup p.1⟩)

/-- VectorDB.search_linear: score every stored vector with the configured
metric, stable-sort by distance, truncate to k and attach metadata. -/
def VectorDB.search_linear (sqrtf : ℚ → ℚ) (db : VectorDB) (query : List ℚ)
    (k : ℕ) : Except KhadyotaError (List SearchResult) :=
  let scored := db.vectors.enum.map fun p =>
    (p.1, compute_distance sqrtf query p.2 db.config.metric)
  Except.ok (((sortByDist scored).take k).map fun p =>
    ⟨p.1, p.2, db.metadata.lookup p.1⟩)

/-- VectorDB.search: dimension check, then the index_built check (failing
with IndexNotBuilt), then the indexed path when both the IVF index and the
quantized store exist, the linear fallback otherwise. -/
def VectorDB.search (sqrtf : ℚ → ℚ) (db : VectorDB) (query : List ℚ) (k : ℕ) :
    Except KhadyotaError (List SearchResult) :=
  if query.length ≠ db.config.dimensions then
    Except.error (KhadyotaError.DimensionMismatch db.config.dimensions query.length)
  else if !db.index_built then
    Except.error KhadyotaError.IndexNotBuilt
  else
    match db.ivf_index, db.quantized with
    | some ivf, some quantized => db.search_with_index sqrtf query k ivf quantized
    | _, _ => db.search_linear sqrtf query k

/-! ### Further helper lemmas -/

theorem getD_mapIdx {α β : Type} (l : List α) (f : ℕ → α → β) (i : ℕ)
    (hi : i < l.length) (d : β) (d2 : α) :
    (l.mapIdx f).getD i d = f i (l.getD i d2) := by
  simp [List.getD_eq_getElem?_getD, List.getElem?_eq_getElem hi]

theorem getD_map {α β : Type} (l : List α) (f : α → β) (i : ℕ)
    (hi : i < l.length) (d : β) (d2 : α) :
    (l.map f).getD i d = f (l.getD i d2) := by
  simp [List.getD_eq_getElem?_getD, List.getElem?_eq_getElem hi]

theorem sumSqDiff_self (v : List ℚ) : sumSqDiff v v = 0 := by
  unfold sumSqDiff
  induction v with
  | nil => rfl
  | cons x xs ih =>
    simp only [List.zip_cons_cons, List.map_cons, List.sum_cons]
    rw [ih]
    ring

/-! ### Claim C10: insert is atomic on a dimension mismatch -/

/-- C10: for every vector whose length differs from the configured
dimension, insert returns DimensionMismatch carrying the expected and
actual lengths, and the database state is unchanged (no id consumed, the
vector and metadata stores untouched, index_built keeps its prior value). -/
theorem insert_dimension_mismatch_atomic (db : VectorDB) (v : List ℚ)
    (m : Option ℕ) (h : v.length ≠ db.config.dimensions) :
    db.insert v m =
      (Except.error (KhadyotaError.DimensionMismatch db.config.dimensions v.length), db) := by
  unfold VectorDB.insert
  rw [if_pos h]

/-- Witness for C10 at a concrete database state and input. -/
theorem insert_dimension_mismatch_atomic_witness :
    ([(1 : ℚ)] : List ℚ).length ≠
      (VectorDB.mk ⟨2, DistanceMetric.Euclidean, true, 1, 2, 1⟩ [] none none [] 0 false).config.dimensions ∧
    (VectorDB.mk ⟨2, DistanceMetric.Euclidean, true, 1, 2, 1⟩ [] none none [] 0 false).insert [(1 : ℚ)] none =
      (Except.error (KhadyotaError.DimensionMismatch 2 1),
       VectorDB.mk ⟨2, DistanceMetric.Euclidean, true, 1, 2, 1⟩ [] none none [] 0 false) :=
  ⟨by decide,
   insert_dimension_mismatch_atomic
     (VectorDB.mk ⟨2, DistanceMetric.Euclidean, true, 1, 2, 1⟩ [] none none [] 0 false)
     [(1 : ℚ)] none (by decide)⟩

/-! ### Claim C8: set_num_probe clamping -/

/-- C8 (amended): set_num_probe stores the minimum of the requested value
and the number of coarse centroids; values above C become C, but there is
no lower clamp, so 0 is stored as 0. -/
theorem set_num_probe_stores_min (ivf : IVFIndex) (n : ℕ) :
    (ivf.set_num_probe n).num_probe = min n ivf.centroids.length := rfl

/-- Counterexample to C8 as stated: on an index with two coarse centroids,
set_num_probe 0 stores 0, not the claimed lower clamp 1. -/
theorem set_num_probe_zero_not_clamped :
    ((IVFIndex.mk [[0], [1]] [[0], [1]] 1 1).set_num_probe 0).num_probe = 0 ∧
    ¬ (1 ≤ ((IVFIndex.mk [[0], [1]] [[0], [1]] 1 1).set_num_probe 0).num_probe) := by
  constructor
  · rfl
  · decide

/-! ### Claim C3: what VectorDB.new validates -/

/-- C3 (amended): database creation succeeds exactly when the dimensions
are positive and, when PQ is enabled, the subvector count divides the
dimensions; num_probe and num_clusters are not examined by the validation,
so num_probe outside [1, num_clusters] or num_clusters = 0 do not make
creation fail. (The hypothesis restricts to positive pq_subvectors when
use_pq is set, where the Rust modulus cannot panic.) -/
theorem new_validates_only_dims_and_divisibility (cfg : Config)
    (hM : cfg.use_pq = true → 0 < cfg.pq_subvectors) :
    (∃ db, VectorDB.new cfg = Except.ok db) ↔
      (0 < cfg.dimensions ∧
        (cfg.use_pq = true → cfg.dimensions % cfg.pq_subvectors = 0)) := by
  clear hM
  unfold VectorDB.new Config.validate
  by_cases h1 : cfg.dimensions = 0
  · simp [h1]
  · rw [if_neg h1]
    by_cases h2 : cfg.use_pq = true ∧ cfg.dimensions % cfg.pq_subvectors ≠ 0
    · rw [if_pos h2]
      simp only [Except.ok.injEq]
      constructor
      · rintro ⟨db, hdb⟩; cases hdb
      · rintro ⟨-, himp⟩
        exact absurd (himp h2.1) h2.2
    · rw [if_neg h2]
      push_neg at h2
      constructor
      · intro _
        exact ⟨Nat.pos_of_ne_zero h1, h2⟩
      · intro _
        exact ⟨_, rfl⟩

/-- Witness for C3 (amended) at a concrete configuration. -/
theorem new_validates_only_dims_and_divisibility_witness :
    ((Config.mk 4 DistanceMetric.Euclidean true 2 10 3).use_pq = true →
      0 < (Config.mk 4 DistanceMetric.Euclidean true 2 10 3).pq_subvectors) ∧
    ((∃ db, VectorDB.new (Config.mk 4 DistanceMetric.Euclidean true 2 10 3) = Except.ok db) ↔
      (0 < (Config.mk 4 DistanceMetric.Euclidean true 2 10 3).dimensions ∧
        ((Config.mk 4 DistanceMetric.Euclidean true 2 10 3).use_pq = true →
          (Config.mk 4 DistanceMetric.Euclidean true 2 10 3).dimensions %
            (Config.mk 4 DistanceMetric.Euclidean true 2 10 3).pq_subvectors = 0))) :=
  ⟨by decide,
   new_validates_only_dims_and_divisibility
     (Config.mk 4 DistanceMetric.Euclidean true 2 10 3) (by decide)⟩

/-- Counterexample to C3 as stated: creation succeeds for num_probe = 0,
for num_probe greater than num_clusters, and for num_clusters = 0, in each
case returning ok rather than InvalidConfig. -/
theorem new_accepts_unchecked_probe_and_clusters :
    VectorDB.new (Config.mk 4 DistanceMetric.Euclidean false 8 10 0) =
      Except.ok ⟨Config.mk 4 DistanceMetric.Euclidean false 8 10 0, [], none, none, [], 0, false⟩ ∧
    VectorDB.new (Config.mk 4 DistanceMetric.Euclidean false 8 2 5) =
      Except.ok ⟨Config.mk 4 DistanceMetric.Euclidean false 8 2 5, [], none, none, [], 0, false⟩ ∧
    VectorDB.new (Config.mk 4 DistanceMetric.Euclidean false 8 0 1) =
      Except.ok ⟨Config.mk 4 DistanceMetric.Euclidean false 8 0 1, [], none, none, [], 0, false⟩ := by
  refine ⟨rfl, rfl, rfl⟩

/-! ### Claim C9: self-distance of the kernels -/

/-- The norm accumulator is a sum of squares, hence nonnegative. -/
theorem normAcc_nonneg : ∀ (v : List ℚ), 0 ≤ normAcc v
  | [] => le_refl 0
  | x :: xs => by
    have ih := normAcc_nonneg xs
    unfold normAcc at ih ⊢
    simp only [List.zip_cons_cons, List.map_cons, List.sum_cons]
    nlinarith [mul_self_nonneg x]

/-- C9 (amended): for every vector with nonzero norm accumulator, the
cosine distance of the vector with itself is within 1e-5 of 0, and for
every vector whatsoever the Euclidean self-distance is 0 (within 1e-5).
The square-root hypotheses are ones the IEEE-754 f32 sqrt satisfies at
the applied points: sqrt 0 = 0 exactly, and at the self-norm n > 0 the
correctly rounded root s equals the real root times (1 + d) with
|d| bounded by the f32 unit roundoff 2 to the power -24, so that
|s * s - n| is at most n times (2 to the power -23 plus lower-order
terms), well below the hypothesized n / 1000000. The all-zero vector is
excluded from the cosine clause: there the source divides 0 by 0 (NaN in
f32), which the counterexample below exhibits. -/
theorem self_distance_zero (sqrtf : ℚ → ℚ) (v : List ℚ)
    (h0 : sqrtf 0 = 0) (hn : normAcc v ≠ 0)
    (hs : |sqrtf (normAcc v) * sqrtf (normAcc v) - normAcc v| ≤ normAcc v / 1000000) :
    |cosine_distance_scalar sqrtf v v| ≤ 1 / 100000 ∧
    ∀ w : List ℚ, |euclidean_distance_scalar sqrtf w w| ≤ 1 / 100000 := by
  constructor
  · have hn0 : 0 < normAcc v := lt_of_le_of_ne (normAcc_nonneg v) (Ne.symm hn)
    unfold cosine_distance_scalar cosine_similarity_scalar
    have hd : dot_product_scalar v v = normAcc v := rfl
    rw [hd]
    obtain ⟨hlo, hhi⟩ := abs_le.1 hs
    have ht0 : 0 < sqrtf (normAcc v) * sqrtf (normAcc v) := by nlinarith
    have heq : 1 - normAcc v / (sqrtf (normAcc v) * sqrtf (normAcc v)) =
        (sqrtf (normAcc v) * sqrtf (normAcc v) - normAcc v) /
          (sqrtf (normAcc v) * sqrtf (normAcc v)) := by
      field_simp
    rw [heq, abs_div, abs_of_pos ht0, div_le_iff ht0]
    linarith [hs, hlo, hn0]
  · intro w
    unfold euclidean_distance_scalar
    rw [sumSqDiff_self, h0]
    norm_num

/-- Witness for C9 (amended): the vector (1, 1), whose squared norm 2 is
not a rational square, with a rational square root of 2 accurate to six
decimal places; the hypothesized relative bound on s * s - 2 holds and
the cosine self-distance lands within the tolerance without being
exactly zero. -/
theorem self_distance_zero_witness :
    ((fun x : ℚ => if x = 2 then 1414214 / 1000000 else 0) 0 = 0) ∧
    normAcc [(1 : ℚ), 1] ≠ 0 ∧
    (|(fun x : ℚ => if x = 2 then 1414214 / 1000000 else 0) (normAcc [(1 : ℚ), 1]) *
       (fun x : ℚ => if x = 2 then 1414214 / 1000000 else 0) (normAcc [(1 : ℚ), 1]) -
       normAcc [(1 : ℚ), 1]| ≤ normAcc [(1 : ℚ), 1] / 1000000) ∧
    (|cosine_distance_scalar (fun x : ℚ => if x = 2 then 1414214 / 1000000 else 0)
        [(1 : ℚ), 1] [(1 : ℚ), 1]| ≤ 1 / 100000 ∧
     ∀ w : List ℚ, |euclidean_distance_scalar
        (fun x : ℚ => if x = 2 then 1414214 / 1000000 else 0) w w| ≤ 1 / 100000) :=
  ⟨by norm_num, by norm_num [normAcc], by norm_num [normAcc, abs_le],
   self_distance_zero (fun x : ℚ => if x = 2 then 1414214 / 1000000 else 0) [(1 : ℚ), 1]
     (by norm_num) (by norm_num [normAcc]) (by norm_num [normAcc, abs_le])⟩

/-- Counterexample to C9 as stated: at the all-zero vector the cosine
self-distance is not within 1e-5 of 0. The square root used is the zero
function, which agrees with the IEEE sqrt at the only point applied
(sqrt 0 = 0); the model's division by zero yields a junk value 1 where
f32 yields NaN, and neither satisfies the bound. -/
theorem cosine_self_distance_zero_vector_fails :
    ¬ (|cosine_distance_scalar (fun _ : ℚ => 0) [(0 : ℚ), 0] [(0 : ℚ), 0]| ≤ 1 / 100000) := by
  norm_num [cosine_distance_scalar, cosine_similarity_scalar, dot_product_scalar, normAcc]

/-! ### Claim C4: asymmetric distance equals the LUT lookup -/

/-- C4: for a trained codec (one code byte per codebook, bytes below 256),
the squared asymmetric distance is exactly the sum of the precomputed
table entries selected by the code, and consequently asymmetric_distance
coincides with table_lookup_distance on the precomputed table (the same
sum fed to the same square root, hence the same floating-point
operations). -/
theorem asymmetric_distance_eq_table_lookup (sqrtf : ℚ → ℚ) (c : PQCodec)
    (q : List ℚ) (codes : List ℕ)
    (hlen : codes.length = c.codebooks.length)
    (hcode : ∀ x ∈ codes, x < 256) :
    asymDistSq c q codes = lutSum (c.precompute_distance_table q) codes ∧
    c.asymmetric_distance sqrtf q codes =
      c.table_lookup_distance sqrtf (c.precompute_distance_table q) codes := by
  have hsum : asymDistSq c q codes = lutSum (c.precompute_distance_table q) codes := by
    unfold asymDistSq lutSum
    congr 1
    apply List.ext_getElem?
    intro i
    rw [List.getElem?_mapIdx, List.getElem?_mapIdx]
    by_cases hi : i < codes.length
    · have hi2 : i < c.codebooks.length := hlen ▸ hi
      have hz : (codes.zip c.codebooks)[i]? = some (codes[i], c.codebooks[i]) := by
        rw [List.getElem?_zip_eq_some]
        exact ⟨List.getElem?_eq_getElem hi, List.getElem?_eq_getElem hi2⟩
      rw [hz, List.getElem?_eq_getElem hi]
      simp only [Option.map_some']
      congr 1
      have htab : (c.precompute_distance_table q).getD i [] =
          (List.range 256).map fun code =>
            (c.codebooks[i]).distance_to_centroid
              (extract_subvector q i c.subvector_size) code := by
        unfold PQCodec.precompute_distance_table
        rw [getD_mapIdx c.codebooks _ i hi2 [] c.codebooks[i]]
        congr 1
        simp [List.getD_eq_getElem?_getD, List.getElem?_eq_getElem hi2]
      rw [htab]
      have hc : codes[i] < 256 := hcode codes[i] (List.getElem_mem hi)
      rw [getD_map (List.range 256) _ codes[i] (by simpa using hc) 0 0]
      congr 1
      simp [List.getD_eq_getElem?_getD, List.getElem?_range hc]
    · have h1 : (codes.zip c.codebooks)[i]? = none := by
        rw [List.getElem?_eq_none_iff]
        simp only [List.length_zip]
        omega
      have h2 : codes[i]? = none := by
        rw [List.getElem?_eq_none_iff]
        omega
      rw [h1, h2]
      rfl
  exact ⟨hsum, by unfold PQCodec.asymmetric_distance PQCodec.table_lookup_distance; rw [hsum]⟩

/-- Witness for C4 at a concrete trained codec, query and code. -/
theorem asymmetric_distance_eq_table_lookup_witness :
    ([(0 : ℕ)] : List ℕ).length =
      (PQCodec.mk 1 1 [Codebook.mk [[(0 : ℚ)]] 1]).codebooks.length ∧
    (∀ x ∈ ([(0 : ℕ)] : List ℕ), x < 256) ∧
    (asymDistSq (PQCodec.mk 1 1 [Codebook.mk [[(0 : ℚ)]] 1]) [(1 : ℚ)] [0] =
      lutSum ((PQCodec.mk 1 1 [Codebook.mk [[(0 : ℚ)]] 1]).precompute_distance_table [(1 : ℚ)]) [0] ∧
     (PQCodec.mk 1 1 [Codebook.mk [[(0 : ℚ)]] 1]).asymmetric_distance (fun x => x) [(1 : ℚ)] [0] =
      (PQCodec.mk 1 1 [Codebook.mk [[(0 : ℚ)]] 1]).table_lookup_distance (fun x => x)
        ((PQCodec.mk 1 1 [Codebook.mk [[(0 : ℚ)]] 1]).precompute_distance_table [(1 : ℚ)]) [0]) :=
  ⟨by decide, by decide,
   asymmetric_distance_eq_table_lookup (fun x => x)
     (PQCodec.mk 1 1 [Codebook.mk [[(0 : ℚ)]] 1]) [(1 : ℚ)] [0] (by decide) (by decide)⟩

/-! ### Claim C5: idempotence of encode after decode -/

theorem cbDistSq_nonneg (a b : List ℚ) : 0 ≤ cbDistSq a b := by
  apply List.sum_nonneg
  intro x hx
  rcases List.mem_map.1 hx with ⟨p, -, hp⟩
  rw [← hp]
  positivity

theorem cbDistSq_self (a : List ℚ) : cbDistSq a a = 0 := sumSqDiff_self a

theorem cbDistSq_eq_zero_iff : ∀ (a b : List ℚ), a.length = b.length →
    (cbDistSq a b = 0 ↔ a = b)
  | [], [], _ => by simp [cbDistSq]
  | [], b :: bs, h => by simp at h
  | a :: as, [], h => by simp at h
  | a :: as, b :: bs, h => by
    have hlen : as.length = bs.length := by simpa using h
    unfold cbDistSq
    simp only [List.zip_cons_cons, List.map_cons, List.sum_cons]
    have h1 : (0 : ℚ) ≤ (a - b) ^ 2 := by positivity
    have h2 : (0 : ℚ) ≤ ((as.zip bs).map fun p => (p.1 - p.2) ^ 2).sum :=
      cbDistSq_nonneg as bs
    constructor
    · intro hz
      have hab : (a - b) ^ 2 = 0 ∧ ((as.zip bs).map fun p => (p.1 - p.2) ^ 2).sum = 0 :=
        (add_eq_zero_iff_of_nonneg h1 h2).1 hz
      have hab1 : a = b := by
        have := pow_eq_zero_iff (n := 2) (by norm_num) |>.1 hab.1
        linarith [sub_eq_zero.1 this]
      have hab2 : as = bs := (cbDistSq_eq_zero_iff as bs hlen).1 hab.2
      rw [hab1, hab2]
    · intro he
      injection he with he1 he2
      subst he1; subst he2
      have hz := cbDistSq_self as
      unfold cbDistSq at hz
      rw [hz]
      ring

/-- Extracting the j-th stride-s slice from a concatenation of length-s
blocks returns the j-th block. -/
theorem extract_flatten : ∀ (blocks : List (List ℚ)) (j s : ℕ),
    (∀ b ∈ blocks, b.length = s) → j < blocks.length →
    extract_subvector blocks.flatten j s = blocks.getD j []
  | [], j, s, _, hj => by simp at hj
  | b :: bs, 0, s, hb, _ => by
    unfold extract_subvector
    simp only [List.flatten_cons, Nat.zero_mul, List.drop_zero]
    rw [List.take_left' (hb b (by simp))]
    rfl
  | b :: bs, j + 1, s, hb, hj => by
    unfold extract_subvector
    simp only [List.flatten_cons]
    have hbl : b.length = s := hb b (by simp)
    have hmul : (j + 1) * s = s + j * s := by ring
    rw [hmul, ← List.drop_drop, List.drop_left' hbl]
    have := extract_flatten bs j s (fun x hx => hb x (by simp [hx]))
      (by simpa using hj)
    unfold extract_subvector at this
    rw [this]
    rfl

/-- Re-encoding the decoded centroid of an encoded subvector returns the
original code: the first centroid at squared distance zero from the chosen
centroid is the chosen one, since an earlier identical centroid would
already have been the first minimum for the original input. -/
theorem cb_encode_decode_encode (cb : Codebook) (x : List ℚ) (s : ℕ)
    (hne : cb.centroids ≠ []) (hle : cb.centroids.length ≤ 256)
    (hlen : ∀ cent ∈ cb.centroids, cent.length = s) :
    cb.encode (cb.decode (cb.encode x)) = cb.encode x := by
  have hl1len : (cb.centroids.map fun cc => cbDistSq x cc).length = cb.centroids.length :=
    List.length_map _ _
  have hne1 : (cb.centroids.map fun cc => cbDistSq x cc) ≠ [] := by
    simpa using hne
  have hi : argminFirst (cb.centroids.map fun cc => cbDistSq x cc) < cb.centroids.length :=
    hl1len ▸ argminFirst_lt_length _ hne1
  set i := argminFirst (cb.centroids.map fun cc => cbDistSq x cc) with hidef
  have hmod : i % 256 = i := Nat.mod_eq_of_lt (lt_of_lt_of_le hi hle)
  have henc : cb.encode x = i := by
    unfold Codebook.encode
    rw [← hidef, hmod]
  have hdec : cb.decode (cb.encode x) = cb.centroids[i] := by
    rw [henc]
    unfold Codebook.decode
    simp [List.getD_eq_getElem?_getD, List.getElem?_eq_getElem hi]
  have hl2len : (cb.centroids.map fun cc => cbDistSq (cb.centroids[i]) cc).length =
      cb.centroids.length := List.length_map _ _
  have hgetl2 : ∀ (j : ℕ) (hj : j < cb.centroids.length),
      (cb.centroids.map fun cc => cbDistSq (cb.centroids[i]) cc).getD j 0 =
        cbDistSq (cb.centroids[i]) (cb.centroids[j]) := by
    intro j hj
    rw [getD_map cb.centroids _ j hj 0 []]
    congr 1
    simp [List.getD_eq_getElem?_getD, List.getElem?_eq_getElem hj]
  have hgetl1 : ∀ (j : ℕ) (hj : j < cb.centroids.length),
      (cb.centroids.map fun cc => cbDistSq x cc).getD j 0 =
        cbDistSq x (cb.centroids[j]) := by
    intro j hj
    rw [getD_map cb.centroids _ j hj 0 []]
    congr 1
    simp [List.getD_eq_getElem?_getD, List.getElem?_eq_getElem hj]
  have harg2 : argminFirst (cb.centroids.map fun cc => cbDistSq (cb.centroids[i]) cc) = i := by
    apply argminFirst_eq_of _ i (hl2len ▸ hi)
    · intro j hj
      have hj2 : j < cb.centroids.length := hl2len ▸ hj
      rw [hgetl2 i hi, hgetl2 j hj2, cbDistSq_self]
      exact cbDistSq_nonneg _ _
    · intro j hj
      have hj2 : j < cb.centroids.length := lt_trans hj hi
      rw [hgetl2 i hi, hgetl2 j hj2, cbDistSq_self]
      rcases lt_or_eq_of_le (cbDistSq_nonneg (cb.centroids[i]) (cb.centroids[j])) with h | h
      · exact h
      · exfalso
        have heq : cb.centroids[i] = cb.centroids[j] := by
          have hli : (cb.centroids[i]).length = s :=
            hlen _ (List.getElem_mem hi)
          have hlj : (cb.centroids[j]).length = s :=
            hlen _ (List.getElem_mem hj2)
          exact (cbDistSq_eq_zero_iff _ _ (by rw [hli, hlj])).1 h.symm
        have hstrict := argminFirst_strict (cb.centroids.map fun cc => cbDistSq x cc) j
          (hidef ▸ hj)
        rw [← hidef] at hstrict
        rw [hgetl1 i hi, hgetl1 j hj2] at hstrict
        rw [← heq] at hstrict
        exact lt_irrefl _ hstrict
  rw [hdec, henc]
  unfold Codebook.encode
  rw [harg2, hmod]

/-- C5: for a trained codec (nonempty codebooks of at most 256 centroids,
each centroid of the subvector length) and any vector of the full
dimension, re-encoding the decoded reconstruction yields the identical
code list. -/
theorem pq_encode_decode_encode (c : PQCodec) (v : List ℚ)
    (hcb : ∀ cb ∈ c.codebooks, cb.centroids ≠ [] ∧ cb.centroids.length ≤ 256 ∧
      ∀ cent ∈ cb.centroids, cent.length = c.subvector_size)
    (hv : v.length = c.codebooks.length * c.subvector_size) :
    c.encode (c.decode (c.encode v)) = c.encode v := by
  clear hv
  have hclen : (c.encode v).length = c.codebooks.length := by
    unfold PQCodec.encode
    exact List.length_mapIdx
  have hzlen : ((c.encode v).zip c.codebooks).length = c.codebooks.length := by
    rw [List.length_zip, hclen, Nat.min_self]
  have hblen : (((c.encode v).zip c.codebooks).map fun p => p.2.decode p.1).length =
      c.codebooks.length := by
    rw [List.length_map, hzlen]
  have hcodej : ∀ (j : ℕ) (hj : j < c.codebooks.length),
      (c.encode v).getD j 0 =
        (c.codebooks[j]).encode (extract_subvector v j c.subvector_size) := by
    intro j hj
    unfold PQCodec.encode
    rw [getD_mapIdx c.codebooks _ j hj 0 (c.codebooks[j])]
    congr 1
    simp [List.getD_eq_getElem?_getD, List.getElem?_eq_getElem hj]
  have hcode_lt : ∀ (j : ℕ) (hj : j < c.codebooks.length),
      (c.encode v).getD j 0 < (c.codebooks[j]).centroids.length := by
    intro j hj
    rw [hcodej j hj]
    obtain ⟨hne, hle, hcl⟩ := hcb (c.codebooks[j]) (List.getElem_mem hj)
    unfold Codebook.encode
    have harg : argminFirst ((c.codebooks[j]).centroids.map fun cc =>
        cbDistSq (extract_subvector v j c.subvector_size) cc) <
        (c.codebooks[j]).centroids.length := by
      have := argminFirst_lt_length
        ((c.codebooks[j]).centroids.map fun cc =>
          cbDistSq (extract_subvector v j c.subvector_size) cc) (by simpa using hne)
      simpa using this
    exact lt_of_le_of_lt (Nat.mod_le _ _) harg
  have hblockj : ∀ (j : ℕ) (hj : j < c.codebooks.length),
      (((c.encode v).zip c.codebooks).map fun p => p.2.decode p.1).getD j [] =
        (c.codebooks[j]).decode ((c.encode v).getD j 0) := by
    intro j hj
    have hjz : j < ((c.encode v).zip c.codebooks).length := hzlen ▸ hj
    rw [getD_map _ _ j hjz [] ((c.encode v).getD j 0, c.codebooks[j])]
    have hjc : j < (c.encode v).length := hclen ▸ hj
    have hpair : ((c.encode v).zip c.codebooks).getD j ((c.encode v).getD j 0, c.codebooks[j]) =
        ((c.encode v).getD j 0, c.codebooks[j]) := by
      simp [List.getD_eq_getElem?_getD, List.getElem?_eq_getElem hjz,
        List.getElem_zip, List.getElem?_eq_getElem hjc]
    rw [hpair]
  have hbll : ∀ b ∈ ((c.encode v).zip c.codebooks).map fun p => p.2.decode p.1,
      b.length = c.subvector_size := by
    intro b hb
    obtain ⟨j, hjb, hjeq⟩ := List.mem_iff_getElem.1 hb
    have hj : j < c.codebooks.length := hblen ▸ hjb
    have hbeq : b = (((c.encode v).zip c.codebooks).map fun p => p.2.decode p.1).getD j [] := by
      rw [List.getD_eq_getElem?_getD, List.getElem?_eq_getElem hjb, hjeq]
      rfl
    rw [hbeq, hblockj j hj]
    unfold Codebook.decode
    obtain ⟨hne, hle, hcl⟩ := hcb (c.codebooks[j]) (List.getElem_mem hj)
    have hlt := hcode_lt j hj
    apply hcl
    rw [List.getD_eq_getElem?_getD, List.getElem?_eq_getElem hlt]
    exact List.getElem_mem hlt
  have hkey : ∀ (j : ℕ) (hj : j < c.codebooks.length),
      (c.codebooks[j]).encode
        (extract_subvector (c.decode (c.encode v)) j c.subvector_size) =
      (c.codebooks[j]).encode (extract_subvector v j c.subvector_size) := by
    intro j hj
    obtain ⟨hne, hle, hcl⟩ := hcb (c.codebooks[j]) (List.getElem_mem hj)
    have hdec : c.decode (c.encode v) =
        (((c.encode v).zip c.codebooks).map fun p => p.2.decode p.1).flatten := rfl
    rw [hdec, extract_flatten _ j c.subvector_size hbll (hblen ▸ hj),
      hblockj j hj, hcodej j hj]
    exact cb_encode_decode_encode (c.codebooks[j]) _ c.subvector_size hne hle hcl
  apply List.ext_getElem?
  intro j
  unfold PQCodec.encode
  rw [List.getElem?_mapIdx, List.getElem?_mapIdx]
  by_cases hj : j < c.codebooks.length
  · rw [List.getElem?_eq_getElem hj]
    simp only [Option.map_some']
    congr 1
    exact hkey j hj
  · rw [List.getElem?_eq_none_iff.2 (by omega)]
    rfl

/-- Witness for C5 at a concrete trained codec and vector. -/
theorem pq_encode_decode_encode_witness :
    (∀ cb ∈ (PQCodec.mk 1 1 [Codebook.mk [[(0 : ℚ)], [2]] 1]).codebooks,
      cb.centroids ≠ [] ∧ cb.centroids.length ≤ 256 ∧
      ∀ cent ∈ cb.centroids,
        cent.length = (PQCodec.mk 1 1 [Codebook.mk [[(0 : ℚ)], [2]] 1]).subvector_size) ∧
    ([(3 : ℚ)] : List ℚ).length =
      (PQCodec.mk 1 1 [Codebook.mk [[(0 : ℚ)], [2]] 1]).codebooks.length *
        (PQCodec.mk 1 1 [Codebook.mk [[(0 : ℚ)], [2]] 1]).subvector_size ∧
    (PQCodec.mk 1 1 [Codebook.mk [[(0 : ℚ)], [2]] 1]).encode
      ((PQCodec.mk 1 1 [Codebook.mk [[(0 : ℚ)], [2]] 1]).decode
        ((PQCodec.mk 1 1 [Codebook.mk [[(0 : ℚ)], [2]] 1]).encode [(3 : ℚ)])) =
    (PQCodec.mk 1 1 [Codebook.mk [[(0 : ℚ)], [2]] 1]).encode [(3 : ℚ)] :=
  ⟨by decide, by decide,
   pq_encode_decode_encode (PQCodec.mk 1 1 [Codebook.mk [[(0 : ℚ)], [2]] 1])
     [(3 : ℚ)] (by decide) (by decide)⟩

/-! ### Claim C1: behavior before build_index and the linear fallback -/

/-- C1 (amended): with a query of the configured dimension, search on a
database whose index has not been built fails with IndexNotBuilt (even
when the database is non-empty); the linear fallback — the configured
metric on the raw vectors over all ids, with no IVF pruning — runs only
when the index is built but either index structure is absent (the
use_pq = false build), in which case search returns its results, of
length min(k, N). -/
theorem search_unbuilt_errors_linear_fallback_post_build (sqrtf : ℚ → ℚ)
    (db : VectorDB) (query : List ℚ) (k : ℕ)
    (hqlen : query.length = db.config.dimensions) :
    (db.index_built = false →
      db.search sqrtf query k = Except.error KhadyotaError.IndexNotBuilt) ∧
    (db.index_built = true → (db.ivf_index = none ∨ db.quantized = none) →
      db.search sqrtf query k = db.search_linear sqrtf query k ∧
      ∃ res, db.search_linear sqrtf query k = Except.ok res ∧
        res.length = min k db.vectors.length) := by
  constructor
  · intro hb
    unfold VectorDB.search
    rw [if_neg (by simp [hqlen]), hb]
    rfl
  · intro hb hnone
    have hsearch : db.search sqrtf query k = db.search_linear sqrtf query k := by
      unfold VectorDB.search
      rw [if_neg (by simp [hqlen]), hb]
      rcases hnone with h | h <;> rw [h]
      · rfl
      · cases hivf : db.ivf_index <;> rfl
    refine ⟨hsearch, ?_⟩
    unfold VectorDB.search_linear
    refine ⟨_, rfl, ?_⟩
    rw [List.length_map, List.length_take, length_sortByDist, List.length_map,
      List.enum_length]

/-- Witness for C1 (amended) at a concrete unbuilt database state. -/
theorem search_unbuilt_errors_linear_fallback_post_build_witness :
    ([(0 : ℚ)] : List ℚ).length =
      (VectorDB.mk (Config.mk 1 DistanceMetric.Euclidean false 1 1 1)
        [[(5 : ℚ)]] none none [] 1 false).config.dimensions ∧
    (((VectorDB.mk (Config.mk 1 DistanceMetric.Euclidean false 1 1 1)
        [[(5 : ℚ)]] none none [] 1 false).index_built = false →
      (VectorDB.mk (Config.mk 1 DistanceMetric.Euclidean false 1 1 1)
        [[(5 : ℚ)]] none none [] 1 false).search (fun x => x) [(0 : ℚ)] 1 =
        Except.error KhadyotaError.IndexNotBuilt) ∧
     ((VectorDB.mk (Config.mk 1 DistanceMetric.Euclidean false 1 1 1)
        [[(5 : ℚ)]] none none [] 1 false).index_built = true →
      ((VectorDB.mk (Config.mk 1 DistanceMetric.Euclidean false 1 1 1)
        [[(5 : ℚ)]] none none [] 1 false).ivf_index = none ∨
       (VectorDB.mk (Config.mk 1 DistanceMetric.Euclidean false 1 1 1)
        [[(5 : ℚ)]] none none [] 1 false).quantized = none) →
      (VectorDB.mk (Config.mk 1 DistanceMetric.Euclidean false 1 1 1)
        [[(5 : ℚ)]] none none [] 1 false).search (fun x => x) [(0 : ℚ)] 1 =
        (VectorDB.mk (Config.mk 1 DistanceMetric.Euclidean false 1 1 1)
          [[(5 : ℚ)]] none none [] 1 false).search_linear (fun x => x) [(0 : ℚ)] 1 ∧
      ∃ res, (VectorDB.mk (Config.mk 1 DistanceMetric.Euclidean false 1 1 1)
          [[(5 : ℚ)]] none none [] 1 false).search_linear (fun x => x) [(0 : ℚ)] 1 =
          Except.ok res ∧
        res.length = min 1 (VectorDB.mk (Config.mk 1 DistanceMetric.Euclidean false 1 1 1)
          [[(5 : ℚ)]] none none [] 1 false).vectors.length)) :=
  ⟨by decide,
   search_unbuilt_errors_linear_fallback_post_build (fun x => x)
     (VectorDB.mk (Config.mk 1 DistanceMetric.Euclidean false 1 1 1)
       [[(5 : ℚ)]] none none [] 1 false) [(0 : ℚ)] 1 (by decide)⟩

/-- Counterexample to C1 as stated: a non-empty database reachable by
new followed by insert, whose index has never been built, answers search
with the IndexNotBuilt error instead of linear-scan results. -/
theorem search_unbuilt_does_not_fall_back :
    VectorDB.new (Config.mk 2 DistanceMetric.Euclidean true 1 2 1) =
      Except.ok (VectorDB.mk (Config.mk 2 DistanceMetric.Euclidean true 1 2 1)
        [] none none [] 0 false) ∧
    (VectorDB.mk (Config.mk 2 DistanceMetric.Euclidean true 1 2 1)
        [] none none [] 0 false).insert [(1 : ℚ), 0] none =
      (Except.ok 0, VectorDB.mk (Config.mk 2 DistanceMetric.Euclidean true 1 2 1)
        [[(1 : ℚ), 0]] none none [] 1 false) ∧
    (VectorDB.mk (Config.mk 2 DistanceMetric.Euclidean true 1 2 1)
        [[(1 : ℚ), 0]] none none [] 1 false).vectors ≠ [] ∧
    (VectorDB.mk (Config.mk 2 DistanceMetric.Euclidean true 1 2 1)
        [[(1 : ℚ), 0]] none none [] 1 false).index_built = false ∧
    (VectorDB.mk (Config.mk 2 DistanceMetric.Euclidean true 1 2 1)
        [[(1 : ℚ), 0]] none none [] 1 false).search (fun x => x) [(1 : ℚ), 0] 1 =
      Except.error KhadyotaError.IndexNotBuilt ∧
    ¬ ∃ res, (VectorDB.mk (Config.mk 2 DistanceMetric.Euclidean true 1 2 1)
        [[(1 : ℚ), 0]] none none [] 1 false).search (fun x => x) [(1 : ℚ), 0] 1 =
      Except.ok res := by
  refine ⟨by decide, by decide, by decide, by decide, by decide, ?_⟩
  rintro ⟨res, hres⟩
  have herr : (VectorDB.mk (Config.mk 2 DistanceMetric.Euclidean true 1 2 1)
      [[(1 : ℚ), 0]] none none [] 1 false).search (fun x => x) [(1 : ℚ), 0] 1 =
      Except.error KhadyotaError.IndexNotBuilt := by decide
  rw [herr] at hres
  cases hres

/-! ### Claim C2: shape and order of indexed search results -/

/-- C2 (amended): with the index built (both the IVF index and the
quantized store present), a query of the configured dimension and any
k >= 1, search returns a sequence of length min(k, N_candidates) — where
N_candidates is the total size of the probed posting lists — ordered
ascending by distance. Candidates at equal distance are kept in candidate
(probe) order by the stable sort, which need not put the lower id first;
the counterexample below exhibits the violation of the lower-id
tie-break. -/
theorem search_with_index_length_and_sorted (sqrtf : ℚ → ℚ) (db : VectorDB)
    (query : List ℚ) (k : ℕ) (ivf : IVFIndex) (qv : QuantizedVectors)
    (hbuilt : db.index_built = true) (hivf : db.ivf_index = some ivf)
    (hq : db.quantized = some qv) (hqlen : query.length = db.config.dimensions)
    (hk : 1 ≤ k) :
    ∃ res, db.search sqrtf query k = Except.ok res ∧
      res.length = min k (ivf.get_candidates (ivf.probe sqrtf query)).length ∧
      res.Pairwise (fun a b => a.distance ≤ b.distance) := by
  have hsearch : db.search sqrtf query k = db.search_with_index sqrtf query k ivf qv := by
    unfold VectorDB.search
    rw [if_neg (by simp [hqlen]), hbuilt, hivf, hq]
    rfl
  rw [hsearch]
  unfold VectorDB.search_with_index
  refine ⟨_, rfl, ?_, ?_⟩
  · rw [List.length_map, List.length_take, length_sortByDist, List.length_map]
  · apply List.Pairwise.map
    · intro a b hab
      exact hab
    · exact List.Pairwise.sublist (List.take_sublist _ _) (sorted_sortByDist _)

/-- Witness for C2 (amended) at a concrete built database state. -/
theorem search_with_index_length_and_sorted_witness :
    ((VectorDB.mk (Config.mk 1 DistanceMetric.Euclidean true 1 1 1)
        [[(0 : ℚ)]] (some (QuantizedVectors.mk [[0]] none
          (PQCodec.mk 1 1 [Codebook.mk [[(0 : ℚ)]] 1])))
        (some (IVFIndex.mk [[(0 : ℚ)]] [[0]] 1 1)) [] 1 true).index_built = true) ∧
    (∃ res, (VectorDB.mk (Config.mk 1 DistanceMetric.Euclidean true 1 1 1)
        [[(0 : ℚ)]] (some (QuantizedVectors.mk [[0]] none
          (PQCodec.mk 1 1 [Codebook.mk [[(0 : ℚ)]] 1])))
        (some (IVFIndex.mk [[(0 : ℚ)]] [[0]] 1 1)) [] 1 true).search (fun x => x)
          [(0 : ℚ)] 1 = Except.ok res ∧
      res.length = min 1 ((IVFIndex.mk [[(0 : ℚ)]] [[0]] 1 1).get_candidates
        ((IVFIndex.mk [[(0 : ℚ)]] [[0]] 1 1).probe (fun x => x) [(0 : ℚ)])).length ∧
      res.Pairwise (fun a b => a.distance ≤ b.distance)) :=
  ⟨rfl,
   search_with_index_length_and_sorted (fun x => x)
     (VectorDB.mk (Config.mk 1 DistanceMetric.Euclidean true 1 1 1)
        [[(0 : ℚ)]] (some (QuantizedVectors.mk [[0]] none
          (PQCodec.mk 1 1 [Codebook.mk [[(0 : ℚ)]] 1])))
        (some (IVFIndex.mk [[(0 : ℚ)]] [[0]] 1 1)) [] 1 true)
     [(0 : ℚ)] 1 (IVFIndex.mk [[(0 : ℚ)]] [[0]] 1 1)
     (QuantizedVectors.mk [[0]] none (PQCodec.mk 1 1 [Codebook.mk [[(0 : ℚ)]] 1]))
     rfl rfl rfl (by decide) (by decide)⟩

/-- The structural invariants that a successful build_index establishes on
the database state (spec section 3): the posting lists partition the id
space [0, N), the coarse centroid count and posting-list count equal the
configured cluster count, centroids have the configured dimension, the
probe width lies in [1, C], there is one PQ code per vector, each code has
one byte per subspace with bytes below 256, one codebook per subspace with
256 centroids of the subvector length, and the subspace geometry matches
the configured dimensions. -/
def BuiltStateInv (db : VectorDB) (ivf : IVFIndex) (qv : QuantizedVectors) : Prop :=
  db.ivf_index = some ivf ∧ db.quantized = some qv ∧ db.index_built = true ∧
  ivf.centroids.length = db.config.num_clusters ∧
  (∀ c ∈ ivf.centroids, c.length = db.config.dimensions) ∧
  ivf.inverted_lists.length = db.config.num_clusters ∧
  (ivf.inverted_lists.map List.length).sum = db.vectors.length ∧
  (∀ l ∈ ivf.inverted_lists, ∀ id ∈ l, id < db.vectors.length) ∧
  (∀ id < db.vectors.length,
    (ivf.inverted_lists.map fun l => l.count id).sum = 1) ∧
  1 ≤ ivf.num_probe ∧ ivf.num_probe ≤ db.config.num_clusters ∧
  qv.codes.length = db.vectors.length ∧
  qv.codec.num_subvectors = db.config.pq_subvectors ∧
  (∀ code ∈ qv.codes, code.length = qv.codec.num_subvectors ∧ ∀ b ∈ code, b < 256) ∧
  qv.codec.codebooks.length = qv.codec.num_subvectors ∧
  (∀ cb ∈ qv.codec.codebooks, cb.centroids.length = 256 ∧
    ∀ cent ∈ cb.centroids, cent.length = qv.codec.subvector_size) ∧
  qv.codec.subvector_size * qv.codec.num_subvectors = db.config.dimensions

set_option maxRecDepth 1000000 in
/-- Counterexample to C2 as stated: a 256-vector built state satisfying
every build invariant in which ids 0 and 1 share the same PQ code (hence
the same distance) but sit in different probed clusters; search returns id
1 before id 0 at equal distance, because the source sorts by distance only
and the stable sort keeps probe order, so the lower id does not come
first. -/
theorem search_with_index_tie_not_lower_id :
    BuiltStateInv
      (VectorDB.mk (Config.mk 2 DistanceMetric.Euclidean true 1 3 2)
        ([[(2 : ℚ), 2], [(1 : ℚ), 1]] ++ List.replicate 254 [(9 : ℚ), 9])
        (some (QuantizedVectors.mk ([[0], [0]] ++ List.replicate 254 [2]) none
          (PQCodec.mk 1 2 [Codebook.mk
            ([[(0 : ℚ), 0], [(50 : ℚ), 50]] ++ List.replicate 254 [(9 : ℚ), 9]) 2])))
        (some (IVFIndex.mk [[(1 : ℚ), 1], [(2 : ℚ), 2], [(9 : ℚ), 9]]
          [[1], [0], (List.range 256).drop 2] 2 2)) [] 256 true)
      (IVFIndex.mk [[(1 : ℚ), 1], [(2 : ℚ), 2], [(9 : ℚ), 9]]
        [[1], [0], (List.range 256).drop 2] 2 2)
      (QuantizedVectors.mk ([[0], [0]] ++ List.replicate 254 [2]) none
        (PQCodec.mk 1 2 [Codebook.mk
          ([[(0 : ℚ), 0], [(50 : ℚ), 50]] ++ List.replicate 254 [(9 : ℚ), 9]) 2])) ∧
    (VectorDB.mk (Config.mk 2 DistanceMetric.Euclidean true 1 3 2)
        ([[(2 : ℚ), 2], [(1 : ℚ), 1]] ++ List.replicate 254 [(9 : ℚ), 9])
        (some (QuantizedVectors.mk ([[0], [0]] ++ List.replicate 254 [2]) none
          (PQCodec.mk 1 2 [Codebook.mk
            ([[(0 : ℚ), 0], [(50 : ℚ), 50]] ++ List.replicate 254 [(9 : ℚ), 9]) 2])))
        (some (IVFIndex.mk [[(1 : ℚ), 1], [(2 : ℚ), 2], [(9 : ℚ), 9]]
          [[1], [0], (List.range 256).drop 2] 2 2)) [] 256 true).search
      (fun x => x) [(0 : ℚ), 0] 2 =
      Except.ok [SearchResult.mk 1 0 none, SearchResult.mk 0 0 none] := by
  constructor
  · unfold BuiltStateInv
    refine ⟨rfl, rfl, rfl, by decide, by decide, by decide, by decide, ?_, ?_,
      by decide, by decide, by decide, by decide, ?_, by decide, by decide, by decide⟩
    · decide
    · decide
    · decide
  · with_unfolding_all decide

/-! ### Claims C6 and C7: k-means and IVF build invariants -/

theorem getD_mem {α : Type} (l : List α) (i : ℕ) (d : α) (h : i < l.length) :
    l.getD i d ∈ l := by
  rw [List.getD_eq_getElem?_getD, List.getElem?_eq_getElem h]
  exact List.getElem_mem h

theorem getD_mod_mem {α : Type} (l : List α) (i : ℕ) (d : α) (h : l ≠ []) :
    l.getD (i % l.length) d ∈ l := by
  apply getD_mem
  exact Nat.mod_lt _ (List.length_pos.2 h)

theorem find_nearest_centroid_lt (sqrtf : ℚ → ℚ) (v : List ℚ)
    (cs : List (List ℚ)) (h : cs ≠ []) :
    (find_nearest_centroid sqrtf v cs).1 < cs.length := by
  unfold find_nearest_centroid
  have := argminFirst_lt_length (cs.map fun c => kmEuclid sqrtf v c) (by simpa using h)
  simpa using this

theorem length_updateAt {α : Type} :
    ∀ (ls : List α) (i : ℕ) (f : α → α), (updateAt ls i f).length = ls.length
  | [], _, _ => rfl
  | _ :: as, 0, f => rfl
  | _ :: as, i + 1, f => by
    unfold updateAt
    simp [length_updateAt as i f]

theorem mem_updateAt {α : Type} :
    ∀ (ls : List α) (i : ℕ) (f : α → α) (x : α), x ∈ updateAt ls i f →
      x ∈ ls ∨ ∃ y ∈ ls, x = f y
  | [], _, _, _, hx => by simp [updateAt] at hx
  | a :: as, 0, f, x, hx => by
    unfold updateAt at hx
    rcases List.mem_cons.1 hx with hx | hx
    · exact Or.inr ⟨a, by simp, hx⟩
    · exact Or.inl (List.mem_cons_of_mem a hx)
  | a :: as, i + 1, f, x, hx => by
    unfold updateAt at hx
    rcases List.mem_cons.1 hx with hx | hx
    · exact Or.inl (by simp [hx])
    · rcases mem_updateAt as i f x hx with hx | ⟨y, hy, hxy⟩
      · exact Or.inl (List.mem_cons_of_mem a hx)
      · exact Or.inr ⟨y, List.mem_cons_of_mem a hy, hxy⟩

theorem length_pushAt :
    ∀ (ls : List (List ℕ)) (i x : ℕ), (pushAt ls i x).length = ls.length
  | [], _, _ => rfl
  | _ :: ls, 0, x => rfl
  | _ :: ls, i + 1, x => by
    unfold pushAt
    simp [length_pushAt ls i x]

theorem pushAt_sum_lengths :
    ∀ (ls : List (List ℕ)) (i x : ℕ), i < ls.length →
      ((pushAt ls i x).map List.length).sum = (ls.map List.length).sum + 1
  | [], i, x, h => by simp at h
  | l :: ls, 0, x, _ => by
    unfold pushAt
    simp only [List.map_cons, List.sum_cons, List.length_append, List.length_singleton]
    omega
  | l :: ls, i + 1, x, h => by
    unfold pushAt
    simp only [List.map_cons, List.sum_cons]
    rw [pushAt_sum_lengths ls i x (by simpa using h)]
    omega

theorem pushAt_count (y : ℕ) :
    ∀ (ls : List (List ℕ)) (i x : ℕ), i < ls.length →
      ((pushAt ls i x).map fun l => l.count y).sum =
        (ls.map fun l => l.count y).sum + (if y = x then 1 else 0)
  | [], i, x, h => by simp at h
  | l :: ls, 0, x, _ => by
    unfold pushAt
    simp only [List.map_cons, List.sum_cons, List.count_append]
    have hcnt : ([x] : List ℕ).count y = if y = x then 1 else 0 := by
      by_cases hyx : y = x
      · subst hyx; simp
      · simp [List.count_singleton', hyx]
    rw [hcnt]
    ring
  | l :: ls, i + 1, x, h => by
    unfold pushAt
    simp only [List.map_cons, List.sum_cons]
    rw [pushAt_count y ls i x (by simpa using h)]
    ring

theorem pushAt_mem_bound :
    ∀ (ls : List (List ℕ)) (i x : ℕ) (l : List ℕ) (z : ℕ),
      l ∈ pushAt ls i x → z ∈ l → (∃ l0 ∈ ls, z ∈ l0) ∨ z = x
  | [], i, x, l, z, hl, hz => by simp [pushAt] at hl
  | a :: ls, 0, x, l, z, hl, hz => by
    unfold pushAt at hl
    rcases List.mem_cons.1 hl with hl | hl
    · subst hl
      rcases List.mem_append.1 hz with hz | hz
      · exact Or.inl ⟨a, by simp, hz⟩
      · exact Or.inr (by simpa using hz)
    · exact Or.inl ⟨l, List.mem_cons_of_mem a hl, hz⟩
  | a :: ls, i + 1, x, l, z, hl, hz => by
    unfold pushAt at hl
    rcases List.mem_cons.1 hl with hl | hl
    · subst hl
      exact Or.inl ⟨l, by simp, hz⟩
    · rcases pushAt_mem_bound ls i x l z hl hz with ⟨l0, hl0, hzl0⟩ | hzx
      · exact Or.inl ⟨l0, List.mem_cons_of_mem a hl0, hzl0⟩
      · exact Or.inr hzx

/-- The k-means++ scan triggers whenever the threshold does not exceed the
total of the remaining weights (in exact arithmetic the source never falls
off the end of the loop for thresholds drawn in [0, 1) times the total). -/
theorem kppScan_isSome :
    ∀ (ds : List ℚ) (threshold : ℚ) (i : ℕ), ds ≠ [] → threshold ≤ ds.sum →
      (kppScan threshold i ds).isSome = true
  | [], _, _, h, _ => absurd rfl h
  | d :: rest, threshold, i, _, hle => by
    unfold kppScan
    by_cases h : threshold - d ≤ 0
    · rw [if_pos h]; rfl
    · rw [if_neg h]
      rcases rest with _ | ⟨e, es⟩
      · exfalso
        simp only [List.sum_cons, List.sum_nil] at hle
        have : threshold - d ≤ 0 := by linarith
        exact h this
      · apply kppScan_isSome (e :: es) (threshold - d) (i + 1) (by simp)
        simp only [List.sum_cons] at hle ⊢
        linarith

/-- The index returned by the scan stays below the running index plus the
number of scanned weights. -/
theorem kppScan_lt :
    ∀ (ds : List ℚ) (threshold : ℚ) (i j : ℕ), kppScan threshold i ds = some j →
      j < i + ds.length
  | [], _, _, _, h => by simp [kppScan] at h
  | d :: rest, threshold, i, j, h => by
    unfold kppScan at h
    by_cases hc : threshold - d ≤ 0
    · rw [if_pos hc] at h
      injection h with h
      subst h
      simp
    · rw [if_neg hc] at h
      have := kppScan_lt rest (threshold - d) (i + 1) j h
      simp only [List.length_cons] at this ⊢
      omega

/-- One k-means++ slot always appends exactly one training vector when the
threshold draw lies in [0, 1). -/
theorem kppStep_props (sqrtf : ℚ → ℚ) (vectors : List (List ℚ)) (r : ℚ)
    (centroids : List (List ℚ)) (hv : vectors ≠ [])
    (hr0 : 0 ≤ r) (hr1 : r < 1) :
    (kppStep sqrtf vectors r centroids).length = centroids.length + 1 ∧
    ∀ c ∈ kppStep sqrtf vectors r centroids, c ∈ centroids ∨ c ∈ vectors := by
  unfold kppStep
  have hdsne : (vectors.map fun v =>
      (find_nearest_centroid sqrtf v centroids).2 *
        (find_nearest_centroid sqrtf v centroids).2) ≠ [] := by
    simpa using hv
  have hnn : ∀ x ∈ vectors.map fun v =>
      (find_nearest_centroid sqrtf v centroids).2 *
        (find_nearest_centroid sqrtf v centroids).2, 0 ≤ x := by
    intro x hx
    rcases List.mem_map.1 hx with ⟨v, -, hvx⟩
    rw [← hvx]
    exact mul_self_nonneg _
  have htot : 0 ≤ (vectors.map fun v =>
      (find_nearest_centroid sqrtf v centroids).2 *
        (find_nearest_centroid sqrtf v centroids).2).sum :=
    List.sum_nonneg hnn
  have hth : r * (vectors.map fun v =>
      (find_nearest_centroid sqrtf v centroids).2 *
        (find_nearest_centroid sqrtf v centroids).2).sum ≤
      (vectors.map fun v =>
      (find_nearest_centroid sqrtf v centroids).2 *
        (find_nearest_centroid sqrtf v centroids).2).sum := by
    nlinarith
  have hsome := kppScan_isSome _ _ 0 hdsne hth
  rcases hscan : kppScan (r * (vectors.map fun v =>
      (find_nearest_centroid sqrtf v centroids).2 *
        (find_nearest_centroid sqrtf v centroids).2).sum) 0
      (vectors.map fun v =>
        (find_nearest_centroid sqrtf v centroids).2 *
          (find_nearest_centroid sqrtf v centroids).2) with _ | idx
  · rw [hscan] at hsome
    simp at hsome
  · simp only [hscan]
    constructor
    · simp
    · intro c hc
      rcases List.mem_append.1 hc with hc | hc
      · exact Or.inl hc
      · have hidx := kppScan_lt _ _ 0 idx hscan
        simp only [Nat.zero_add, List.length_map] at hidx
        have hceq : c = vectors.getD idx [] := by simpa using hc
        rw [hceq]
        exact Or.inr (getD_mem vectors idx [] hidx)

/-- The k-means++ slot loop grows the centroid list by one per slot. -/
theorem kppLoop_props (sqrtf : ℚ → ℚ) (vectors : List (List ℚ)) (rvals : ℕ → ℚ)
    (hv : vectors ≠ []) (hr : ∀ t, 0 ≤ rvals t ∧ rvals t < 1) :
    ∀ (rem t : ℕ) (centroids : List (List ℚ)),
      (kppLoop sqrtf vectors rvals t rem centroids).length = centroids.length + rem ∧
      ∀ c ∈ kppLoop sqrtf vectors rvals t rem centroids, c ∈ centroids ∨ c ∈ vectors := by
  intro rem
  induction rem with
  | zero =>
    intro t centroids
    exact ⟨rfl, fun c hc => Or.inl hc⟩
  | succ n ih =>
    intro t centroids
    unfold kppLoop
    obtain ⟨hstep_len, hstep_mem⟩ :=
      kppStep_props sqrtf vectors (rvals t) centroids hv (hr t).1 (hr t).2
    obtain ⟨hlen, hmem⟩ := ih (t + 1) (kppStep sqrtf vectors (rvals t) centroids)
    constructor
    · rw [hlen, hstep_len]
      omega
    · intro c hc
      rcases hmem c hc with hc2 | hc2
      · exact hstep_mem c hc2
      · exact Or.inr hc2

/-- kmeans++ initialization returns exactly k centroids, all drawn from
the training vectors. -/
theorem kmeans_plus_plus_init_props (sqrtf : ℚ → ℚ) (pickInit : ℕ)
    (rvals : ℕ → ℚ) (vectors : List (List ℚ)) (k : ℕ)
    (hv : vectors ≠ []) (hk : 1 ≤ k) (hr : ∀ t, 0 ≤ rvals t ∧ rvals t < 1) :
    (kmeans_plus_plus_init sqrtf pickInit rvals vectors k).length = k ∧
    ∀ c ∈ kmeans_plus_plus_init sqrtf pickInit rvals vectors k, c ∈ vectors := by
  unfold kmeans_plus_plus_init
  obtain ⟨hlen, hmem⟩ := kppLoop_props sqrtf vectors rvals hv hr (k - 1) 1
    [vectors.getD (pickInit % vectors.length) []]
  constructor
  · rw [hlen]
    simp only [List.length_singleton]
    omega
  · intro c hc
    rcases hmem c hc with hc2 | hc2
    · have : c = vectors.getD (pickInit % vectors.length) [] := by simpa using hc2
      rw [this]
      exact getD_mod_mem vectors pickInit [] hv
    · exact hc2

/-- The accumulation pass preserves the cluster count and the coordinate
dimension of every per-cluster sum. -/
theorem kmAccumulate_inv (d k : ℕ) :
    ∀ (ps : List (List ℚ × ℕ)) (st : List (List ℚ) × List ℕ),
      (∀ p ∈ ps, p.1.length = d) →
      st.1.length = k → st.2.length = k → (∀ c ∈ st.1, c.length = d) →
      (ps.foldl (fun st p =>
        (updateAt st.1 p.2 (fun c => c.zipWith (· + ·) p.1),
         updateAt st.2 p.2 (· + 1))) st).1.length = k ∧
      (ps.foldl (fun st p =>
        (updateAt st.1 p.2 (fun c => c.zipWith (· + ·) p.1),
         updateAt st.2 p.2 (· + 1))) st).2.length = k ∧
      ∀ c ∈ (ps.foldl (fun st p =>
        (updateAt st.1 p.2 (fun c => c.zipWith (· + ·) p.1),
         updateAt st.2 p.2 (· + 1))) st).1, c.length = d
  | [], st, _, h1, h2, h3 => ⟨h1, h2, h3⟩
  | p :: ps, st, hp, h1, h2, h3 => by
    rw [List.foldl_cons]
    apply kmAccumulate_inv d k ps _ (fun q hq => hp q (List.mem_cons_of_mem p hq))
    · rw [length_updateAt, h1]
    · rw [length_updateAt, h2]
    · intro c hc
      rcases mem_updateAt _ _ _ _ hc with hc | ⟨y, hy, hcy⟩
      · exact h3 c hc
      · rw [hcy, List.length_zipWith, h3 y hy, hp p (by simp)]
        exact Nat.min_self d

/-- The averaging pass preserves the cluster count and dimensions. -/
theorem kmAverage_props (sums : List (List ℚ)) (counts : List ℕ) (d : ℕ)
    (hs : ∀ c ∈ sums, c.length = d) :
    (kmAverage sums counts).length = min sums.length counts.length ∧
    ∀ c ∈ kmAverage sums counts, c.length = d := by
  constructor
  · exact List.length_zipWith _ _ _
  · intro c hc
    obtain ⟨j, hj, hjc⟩ := List.mem_iff_getElem.1 hc
    have hj1 : j < sums.length := by
      have := List.length_zipWith
        (fun c cnt => if 0 < cnt then c.map (fun x => x / (cnt : ℚ)) else c) sums counts
      unfold kmAverage at hj
      omega
    have hj2 : j < counts.length := by
      have := List.length_zipWith
        (fun c cnt => if 0 < cnt then c.map (fun x => x / (cnt : ℚ)) else c) sums counts
      unfold kmAverage at hj
      omega
    have hget : (kmAverage sums counts)[j] =
        if 0 < counts[j] then (sums[j]).map (fun x => x / (counts[j] : ℚ)) else sums[j] := by
      unfold kmAverage
      exact List.getElem_zipWith
    rw [← hjc, hget]
    by_cases hcnt : 0 < counts[j]
    · rw [if_pos hcnt, List.length_map]
      exact hs _ (List.getElem_mem hj1)
    · rw [if_neg hcnt]
      exact hs _ (List.getElem_mem hj1)

/-- The empty-cluster pass preserves the cluster count and dimensions. -/
theorem kmReinit_props (vectors : List (List ℚ)) (pe : ℕ → ℕ)
    (averaged : List (List ℚ)) (counts : List ℕ) (d : ℕ)
    (hv : vectors ≠ []) (hd : ∀ v ∈ vectors, v.length = d)
    (ha : ∀ c ∈ averaged, c.length = d) :
    (kmReinit vectors pe averaged counts).length = min averaged.length counts.length ∧
    ∀ c ∈ kmReinit vectors pe averaged counts, c.length = d := by
  constructor
  · unfold kmReinit
    rw [List.length_mapIdx, List.length_zip]
  · intro c hc
    unfold kmReinit at hc
    rcases List.mem_mapIdx.1 hc with ⟨i, hi, hic⟩
    rw [← hic]
    have hi1 : i < averaged.length := by
      rw [List.length_zip] at hi
      omega
    have hi2 : i < counts.length := by
      rw [List.length_zip] at hi
      omega
    have hget : (averaged.zip counts)[i] = (averaged[i], counts[i]) := List.getElem_zip
    rw [hget]
    by_cases hcnt : counts[i] = 0
    · simp only [hcnt, if_pos rfl]
      exact hd _ (getD_mod_mem vectors (pe i) [] hv)
    · rw [if_neg hcnt]
      exact ha _ (List.getElem_mem hi1)

/-- The full update step returns k centroids of dimension d. -/
theorem kmUpdate_props (vectors : List (List ℚ)) (assignments : List ℕ)
    (k d : ℕ) (pe : ℕ → ℕ) (hv : vectors ≠ [])
    (hd : ∀ v ∈ vectors, v.length = d) :
    (kmUpdate vectors assignments k d pe).length = k ∧
    ∀ c ∈ kmUpdate vectors assignments k d pe, c.length = d := by
  have hzip : ∀ p ∈ vectors.zip assignments, p.1.length = d := by
    intro p hp
    obtain ⟨a, b⟩ := p
    exact hd a (List.of_mem_zip hp).1
  obtain ⟨ha1, ha2, ha3⟩ := kmAccumulate_inv d k (vectors.zip assignments)
    (List.replicate k (List.replicate d (0 : ℚ)), List.replicate k 0) hzip
    (List.length_replicate k _) (List.length_replicate k _)
    (fun c hc => by rw [List.eq_of_mem_replicate hc]; exact List.length_replicate d _)
  have haccum : kmAccumulate vectors assignments k d =
      (vectors.zip assignments).foldl (fun st p =>
        (updateAt st.1 p.2 (fun c => c.zipWith (· + ·) p.1),
         updateAt st.2 p.2 (· + 1)))
      (List.replicate k (List.replicate d (0 : ℚ)), List.replicate k 0) := rfl
  rw [← haccum] at ha1 ha2 ha3
  obtain ⟨hav1, hav2⟩ := kmAverage_props (kmAccumulate vectors assignments k d).1
    (kmAccumulate vectors assignments k d).2 d ha3
  obtain ⟨hr1, hr2⟩ := kmReinit_props vectors pe
    (kmAverage (kmAccumulate vectors assignments k d).1
      (kmAccumulate vectors assignments k d).2)
    (kmAccumulate vectors assignments k d).2 d hv hd hav2
  constructor
  · unfold kmUpdate
    rw [hr1, hav1, ha1, ha2]
    simp
  · exact hr2

/-- Every assignment computed against k nonempty centroids is below k, and
there is one per vector. -/
theorem kmAssign_fst_props (sqrtf : ℚ → ℚ) (vectors cs : List (List ℚ))
    (k : ℕ) (hcs : cs.length = k) (hk : 1 ≤ k) :
    ((kmAssign sqrtf vectors cs).map Prod.fst).length = vectors.length ∧
    ∀ a ∈ (kmAssign sqrtf vectors cs).map Prod.fst, a < k := by
  have hcsne : cs ≠ [] := by
    intro h
    rw [h] at hcs
    simp at hcs
    omega
  constructor
  · unfold kmAssign
    rw [List.length_map, List.length_map]
  · intro a ha
    rcases List.mem_map.1 ha with ⟨pr, hpr, hpa⟩
    unfold kmAssign at hpr
    rcases List.mem_map.1 hpr with ⟨v, -, hvpr⟩
    rw [← hpa, ← hvpr]
    rw [← hcs]
    exact find_nearest_centroid_lt sqrtf v cs hcsne

/-- The Lloyd loop preserves the shape invariants of the centroid list and
the assignment list no matter where (or whether) it converges. -/
theorem kmLoop_inv (sqrtf : ℚ → ℚ) (vectors : List (List ℚ)) (k d : ℕ)
    (tol : ℚ) (pe : ℕ → ℕ → ℕ) (hv : vectors ≠ [])
    (hd : ∀ v ∈ vectors, v.length = d) (hk : 1 ≤ k) :
    ∀ (rem iter : ℕ) (cs : List (List ℚ)) (asg : List ℕ) (prev : Option ℚ),
      cs.length = k → (∀ c ∈ cs, c.length = d) →
      asg.length = vectors.length → (∀ a ∈ asg, a < k) →
      (kmLoop sqrtf vectors k d tol pe iter rem cs asg prev).1.length = k ∧
      (∀ c ∈ (kmLoop sqrtf vectors k d tol pe iter rem cs asg prev).1, c.length = d) ∧
      (kmLoop sqrtf vectors k d tol pe iter rem cs asg prev).2.length = vectors.length ∧
      (∀ a ∈ (kmLoop sqrtf vectors k d tol pe iter rem cs asg prev).2, a < k) := by
  intro rem
  induction rem with
  | zero =>
    intro iter cs asg prev h1 h2 h3 h4
    unfold kmLoop
    exact ⟨h1, h2, h3, h4⟩
  | succ n ih =>
    intro iter cs asg prev h1 h2 h3 h4
    obtain ⟨hasg_len, hasg_lt⟩ := kmAssign_fst_props sqrtf vectors cs k h1 hk
    unfold kmLoop
    by_cases hconv : kmConverged prev
        (((kmAssign sqrtf vectors cs).map fun p => p.2 * p.2).sum) tol = true
    · rw [if_pos hconv]
      exact ⟨h1, h2, hasg_len, hasg_lt⟩
    · rw [if_neg hconv]
      obtain ⟨hu1, hu2⟩ := kmUpdate_props vectors
        ((kmAssign sqrtf vectors cs).map Prod.fst) k d (pe iter) hv hd
      exact ih (iter + 1) _ _ _ hu1 hu2 hasg_len hasg_lt

/-- Shared contract of the kmeans trainer: exactly k centroids of the
training dimension, one assignment per vector with every assignment below
k, and the final inertia recomputed as the sum of squared distances to the
assigned centroids. Used by the kmeans claim and by the IVF build claim. -/
theorem kmeans_props (sqrtf : ℚ → ℚ) (pickInit : ℕ) (rvals : ℕ → ℚ)
    (pickEmpty : ℕ → ℕ → ℕ) (vectors : List (List ℚ))
    (k max_iterations : ℕ) (tol : ℚ) (d : ℕ)
    (hv : vectors ≠ []) (hd : ∀ v ∈ vectors, v.length = d)
    (hk : 1 ≤ k) (hr : ∀ t, 0 ≤ rvals t ∧ rvals t < 1) :
    (kmeans sqrtf pickInit rvals pickEmpty vectors k max_iterations tol).centroids.length = k ∧
    (∀ c ∈ (kmeans sqrtf pickInit rvals pickEmpty vectors k max_iterations tol).centroids,
      c.length = d) ∧
    (kmeans sqrtf pickInit rvals pickEmpty vectors k max_iterations tol).assignments.length =
      vectors.length ∧
    (∀ a ∈ (kmeans sqrtf pickInit rvals pickEmpty vectors k max_iterations tol).assignments,
      a < k) ∧
    (kmeans sqrtf pickInit rvals pickEmpty vectors k max_iterations tol).inertia =
      compute_inertia sqrtf vectors
        (kmeans sqrtf pickInit rvals pickEmpty vectors k max_iterations tol).centroids
        (kmeans sqrtf pickInit rvals pickEmpty vectors k max_iterations tol).assignments := by
  have hd0 : (vectors.getD 0 []).length = d :=
    hd _ (getD_mem vectors 0 [] (List.length_pos.2 hv))
  obtain ⟨hi1, hi2⟩ := kmeans_plus_plus_init_props sqrtf pickInit rvals vectors k hv hk hr
  have hloop := kmLoop_inv sqrtf vectors k (vectors.getD 0 []).length tol pickEmpty hv
    (by rw [hd0]; exact hd) hk max_iterations 0
    (kmeans_plus_plus_init sqrtf pickInit rvals vectors k)
    (List.replicate vectors.length 0) none hi1
    (fun c hc => by rw [hd0]; exact hd c (hi2 c hc))
    (List.length_replicate _ _)
    (fun a ha => by rw [List.eq_of_mem_replicate ha]; omega)
  obtain ⟨hl1, hl2, hl3, hl4⟩ := hloop
  refine ⟨hl1, fun c hc => by rw [← hd0]; exact hl2 c hc, hl3, hl4, rfl⟩

/-- C7: for every non-empty training set of vectors of dimension d, every
cluster count k with 1 <= k <= N and threshold draws in [0, 1), kmeans
returns exactly k centroids of dimension d, a length-N assignment array
with all entries below k, and an inertia equal to the sum over the vectors
of the squared Euclidean distance to the assigned centroid. -/
theorem kmeans_contract (sqrtf : ℚ → ℚ) (pickInit : ℕ) (rvals : ℕ → ℚ)
    (pickEmpty : ℕ → ℕ → ℕ) (vectors : List (List ℚ))
    (k max_iterations : ℕ) (tol : ℚ) (d : ℕ)
    (hv : vectors ≠ []) (hd : ∀ v ∈ vectors, v.length = d)
    (hk1 : 1 ≤ k) (hkN : k ≤ vectors.length)
    (hr : ∀ t, 0 ≤ rvals t ∧ rvals t < 1) :
    (kmeans sqrtf pickInit rvals pickEmpty vectors k max_iterations tol).centroids.length = k ∧
    (∀ c ∈ (kmeans sqrtf pickInit rvals pickEmpty vectors k max_iterations tol).centroids,
      c.length = d) ∧
    (kmeans sqrtf pickInit rvals pickEmpty vectors k max_iterations tol).assignments.length =
      vectors.length ∧
    (∀ a ∈ (kmeans sqrtf pickInit rvals pickEmpty vectors k max_iterations tol).assignments,
      a < k) ∧
    (kmeans sqrtf pickInit rvals pickEmpty vectors k max_iterations tol).inertia =
      ((vectors.zip
        (kmeans sqrtf pickInit rvals pickEmpty vectors k max_iterations tol).assignments).map
        fun p => kmEuclid sqrtf p.1
          ((kmeans sqrtf pickInit rvals pickEmpty vectors k max_iterations tol).centroids.getD
            p.2 []) ^ 2).sum := by
  obtain ⟨h1, h2, h3, h4, h5⟩ :=
    kmeans_props sqrtf pickInit rvals pickEmpty vectors k max_iterations tol d hv hd hk1 hr
  refine ⟨h1, h2, h3, h4, ?_⟩
  rw [h5]
  unfold compute_inertia
  simp only [pow_two]

/-- Witness for C7 at a concrete training set and random draws. -/
theorem kmeans_contract_witness :
    ([[(0 : ℚ), 0], [(1 : ℚ), 1]] : List (List ℚ)) ≠ [] ∧
    (∀ v ∈ ([[(0 : ℚ), 0], [(1 : ℚ), 1]] : List (List ℚ)), v.length = 2) ∧
    1 ≤ 2 ∧ 2 ≤ ([[(0 : ℚ), 0], [(1 : ℚ), 1]] : List (List ℚ)).length ∧
    (∀ t : ℕ, 0 ≤ (fun _ : ℕ => (0 : ℚ)) t ∧ (fun _ : ℕ => (0 : ℚ)) t < 1) ∧
    ((kmeans (fun x => x) 0 (fun _ => 0) (fun _ _ => 0)
        [[(0 : ℚ), 0], [(1 : ℚ), 1]] 2 1 (1 / 1000)).centroids.length = 2 ∧
     (∀ c ∈ (kmeans (fun x => x) 0 (fun _ => 0) (fun _ _ => 0)
        [[(0 : ℚ), 0], [(1 : ℚ), 1]] 2 1 (1 / 1000)).centroids, c.length = 2) ∧
     (kmeans (fun x => x) 0 (fun _ => 0) (fun _ _ => 0)
        [[(0 : ℚ), 0], [(1 : ℚ), 1]] 2 1 (1 / 1000)).assignments.length =
       ([[(0 : ℚ), 0], [(1 : ℚ), 1]] : List (List ℚ)).length ∧
     (∀ a ∈ (kmeans (fun x => x) 0 (fun _ => 0) (fun _ _ => 0)
        [[(0 : ℚ), 0], [(1 : ℚ), 1]] 2 1 (1 / 1000)).assignments, a < 2) ∧
     (kmeans (fun x => x) 0 (fun _ => 0) (fun _ _ => 0)
        [[(0 : ℚ), 0], [(1 : ℚ), 1]] 2 1 (1 / 1000)).inertia =
       ((([[(0 : ℚ), 0], [(1 : ℚ), 1]] : List (List ℚ)).zip
         (kmeans (fun x => x) 0 (fun _ => 0) (fun _ _ => 0)
           [[(0 : ℚ), 0], [(1 : ℚ), 1]] 2 1 (1 / 1000)).assignments).map
         fun p => kmEuclid (fun x => x) p.1
           ((kmeans (fun x => x) 0 (fun _ => 0) (fun _ _ => 0)
             [[(0 : ℚ), 0], [(1 : ℚ), 1]] 2 1 (1 / 1000)).centroids.getD p.2 []) ^ 2).sum) :=
  ⟨by decide, by decide, by decide, by decide,
   fun t => ⟨le_refl 0, by norm_num⟩,
   kmeans_contract (fun x => x) 0 (fun _ => 0) (fun _ _ => 0)
     [[(0 : ℚ), 0], [(1 : ℚ), 1]] 2 1 (1 / 1000) 2
     (by decide) (by decide) (by decide) (by decide)
     (fun t => ⟨le_refl 0, by norm_num⟩)⟩

/-- The posting-list population fold: C lists, n total entries, each id in
[0, n) counted exactly once and every stored id below n. -/
theorem ivfAssignLists_inv (assign : ℕ → ℕ) (C : ℕ) (hC : ∀ vid, assign vid < C) :
    ∀ n : ℕ, (ivfAssignLists assign n C).length = C ∧
      ((ivfAssignLists assign n C).map List.length).sum = n ∧
      (∀ y : ℕ, ((ivfAssignLists assign n C).map fun l => l.count y).sum =
        if y < n then 1 else 0) ∧
      (∀ l ∈ ivfAssignLists assign n C, ∀ z ∈ l, z < n) := by
  intro n
  induction n with
  | zero =>
    unfold ivfAssignLists
    refine ⟨by simp, by simp [List.map_replicate], ?_, ?_⟩
    · intro y
      simp [List.map_replicate]
    · intro l hl z hz
      have hl2 : l ∈ List.replicate C ([] : List ℕ) := by simpa using hl
      rw [List.eq_of_mem_replicate hl2] at hz
      simp at hz
  | succ n ih =>
    obtain ⟨ih1, ih2, ih3, ih4⟩ := ih
    have hstep : ivfAssignLists assign (n + 1) C =
        pushAt (ivfAssignLists assign n C) (assign n) n := by
      unfold ivfAssignLists
      rw [List.range_succ, List.foldl_append]
      rfl
    have hlt : assign n < (ivfAssignLists assign n C).length := by
      rw [ih1]
      exact hC n
    refine ⟨?_, ?_, ?_, ?_⟩
    · rw [hstep, length_pushAt, ih1]
    · rw [hstep, pushAt_sum_lengths _ _ _ hlt, ih2]
    · intro y
      rw [hstep, pushAt_count y _ _ _ hlt, ih3]
      split_ifs <;> omega
    · intro l hl z hz
      rw [hstep] at hl
      rcases pushAt_mem_bound _ _ _ l z hl hz with ⟨l0, hl0, hzl0⟩ | hzx
      · have := ih4 l0 hl0 z hzl0
        omega
      · omega

/-- C6: after IVFIndex.build over a non-empty training set with
1 <= C <= N clusters (and threshold draws in [0, 1)), the posting lists
partition the id space: the lengths sum to N, every stored id is in
[0, N), and every id in [0, N) appears in exactly one list (its total
count across all lists is one). -/
theorem ivf_build_partitions (sqrtf : ℚ → ℚ) (pickInit : ℕ) (rvals : ℕ → ℚ)
    (pickEmpty : ℕ → ℕ → ℕ) (ivf : IVFIndex) (vectors : List (List ℚ))
    (num_clusters d : ℕ)
    (hv : vectors ≠ []) (hd : ∀ v ∈ vectors, v.length = d)
    (hk1 : 1 ≤ num_clusters) (hkN : num_clusters ≤ vectors.length)
    (hr : ∀ t, 0 ≤ rvals t ∧ rvals t < 1) :
    ((IVFIndex.build sqrtf pickInit rvals pickEmpty ivf vectors
      num_clusters).inverted_lists.map List.length).sum = vectors.length ∧
    (∀ l ∈ (IVFIndex.build sqrtf pickInit rvals pickEmpty ivf vectors
      num_clusters).inverted_lists, ∀ id ∈ l, id < vectors.length) ∧
    (∀ id < vectors.length,
      ((IVFIndex.build sqrtf pickInit rvals pickEmpty ivf vectors
        num_clusters).inverted_lists.map fun l => l.count id).sum = 1) := by
  have hlists : (IVFIndex.build sqrtf pickInit rvals pickEmpty ivf vectors
      num_clusters).inverted_lists =
      ivfAssignLists
        (fun vec_id => argminFirst
          ((kmeans sqrtf pickInit rvals pickEmpty vectors num_clusters 100
            (1 / 1000)).centroids.map
            fun c => euclidean_distance_scalar sqrtf (vectors.getD vec_id []) c))
        vectors.length num_clusters := rfl
  have hcen := (kmeans_props sqrtf pickInit rvals pickEmpty vectors num_clusters 100
    (1 / 1000) d hv hd hk1 hr).1
  have hC : ∀ vid, argminFirst
      ((kmeans sqrtf pickInit rvals pickEmpty vectors num_clusters 100
        (1 / 1000)).centroids.map
        fun c => euclidean_distance_scalar sqrtf (vectors.getD vid []) c) <
      num_clusters := by
    intro vid
    have hne : (kmeans sqrtf pickInit rvals pickEmpty vectors num_clusters 100
        (1 / 1000)).centroids ≠ [] := by
      intro hnil
      rw [hnil] at hcen
      simp at hcen
      omega
    have := argminFirst_lt_length
      ((kmeans sqrtf pickInit rvals pickEmpty vectors num_clusters 100
        (1 / 1000)).centroids.map
        fun c => euclidean_distance_scalar sqrtf (vectors.getD vid []) c)
      (by simpa using hne)
    rw [List.length_map, hcen] at this
    exact this
  obtain ⟨hi1, hi2, hi3, hi4⟩ := ivfAssignLists_inv _ num_clusters hC vectors.length
  rw [hlists]
  refine ⟨hi2, hi4, ?_⟩
  intro id hid
  rw [hi3 id]
  exact if_pos hid

/-- Witness for C6 at a concrete training set and random draws. -/
theorem ivf_build_partitions_witness :
    ([[(0 : ℚ), 0], [(4 : ℚ), 4]] : List (List ℚ)) ≠ [] ∧
    (∀ v ∈ ([[(0 : ℚ), 0], [(4 : ℚ), 4]] : List (List ℚ)), v.length = 2) ∧
    1 ≤ 1 ∧ 1 ≤ ([[(0 : ℚ), 0], [(4 : ℚ), 4]] : List (List ℚ)).length ∧
    (∀ t : ℕ, 0 ≤ (fun _ : ℕ => (0 : ℚ)) t ∧ (fun _ : ℕ => (0 : ℚ)) t < 1) ∧
    (((IVFIndex.build (fun x => x) 0 (fun _ => 0) (fun _ _ => 0)
        (IVFIndex.new 2 1 1) [[(0 : ℚ), 0], [(4 : ℚ), 4]]
        1).inverted_lists.map List.length).sum =
      ([[(0 : ℚ), 0], [(4 : ℚ), 4]] : List (List ℚ)).length ∧
     (∀ l ∈ (IVFIndex.build (fun x => x) 0 (fun _ => 0) (fun _ _ => 0)
        (IVFIndex.new 2 1 1) [[(0 : ℚ), 0], [(4 : ℚ), 4]] 1).inverted_lists,
       ∀ id ∈ l, id < ([[(0 : ℚ), 0], [(4 : ℚ), 4]] : List (List ℚ)).length) ∧
     (∀ id < ([[(0 : ℚ), 0], [(4 : ℚ), 4]] : List (List ℚ)).length,
       ((IVFIndex.build (fun x => x) 0 (fun _ => 0) (fun _ _ => 0)
         (IVFIndex.new 2 1 1) [[(0 : ℚ), 0], [(4 : ℚ), 4]]
         1).inverted_lists.map fun l => l.count id).sum = 1)) :=
  ⟨by decide, by decide, by decide, by decide,
   fun t => ⟨le_refl 0, by norm_num⟩,
   ivf_build_partitions (fun x => x) 0 (fun _ => 0) (fun _ _ => 0)
     (IVFIndex.new 2 1 1) [[(0 : ℚ), 0], [(4 : ℚ), 4]] 1 2
     (by decide) (by decide) (by decide) (by decide)
     (fun t => ⟨le_refl 0, by norm_num⟩)⟩
